import Mathlib

/-!
# Verification of the redream JIT coordinator (src/jit/jit.c)

Shallow embedding of the JIT coordinator and the SH4 frontend analyzer.

Modelling conventions:
* C heap pointers to `struct jit_code` become numeric ids allocated from a
  counter (`next_id`); the "heap" is the list `codes`.
* The red-black trees `jit->code`, `jit->code_reverse` and `jit->meta`
  become association lists; the two code maps are key-sorted lists of
  `(key, code id)` pairs (key = guest address resp. host address), exactly
  mirroring the tree order used by `rb_upper_bound`.
* The intrusive edge lists `in_edges`/`out_edges` become one list of edge
  records; membership in a code's in/out list is `dst = id` / `src = id`.
  Every C operation removes an edge from both endpoint lists together, so
  the single list is an exact image of the pair of intrusive lists.
* A meta's `compile_refs` intrusive list is modelled by its length `refs`
  (the only observation the code makes of it is `list_empty`).
* Calls out of the coordinator (guest dispatch maintenance, backend reset,
  frontend analysis, edge patching) are recorded in an event trace
  (`events`, newest first); the guest's dispatch table is part of the
  state since `jit_is_stale` reads it back.
* Fatal paths (`CHECK`/`LOG_FATAL`, and undefined behaviour such as a null
  pointer dereference) are modelled by `Option`: `none` means the program
  does not return from the operation.
* 32-bit guest address arithmetic is `Nat` with explicit `% 2^32`
  (via `Int` where a sign-extended displacement is added).
-/

/-- `INVALID_ADDR` sentinel (0xFFFFFFFF). -/
def INVALID_ADDR : Nat := 4294967295

/-- Branch classification produced by a frontend (enum in jit.h). -/
inductive BranchType where
  | fall_through
  | static
  | static_true
  | static_false
  | dynamic
  | dynamic_true
  | dynamic_false
deriving DecidableEq

/-- The block-analysis fields a frontend's `analyze_code` fills into a
`jit_block_meta`. -/
structure AnalyzeRes where
  branch_type : BranchType
  branch_addr : Nat
  next_addr : Nat
  num_instrs : Nat
  num_cycles : Nat
  size : Nat
deriving DecidableEq

/-! ## SH4 frontend analyzer (src/jit/frontend/sh4/sh4_frontend.c) -/

/-- SH4 branch opcodes distinguished by `sh4_frontend_analyze_code`;
`other` covers every non-branch opcode. -/
inductive Sh4Op where
  | BF | BFS | BT | BTS | BRA | BRAF | BSR | BSRF
  | JMP | JSR | RTS | RTE | TRAPA | other
deriving DecidableEq

/-- Decoded SH4 instruction: the fields of `struct sh4_instr` that
`sh4_frontend_analyze_code` consumes (`op`, `disp`, `cycles`, and the
DELAYED/BRANCH/SET_FPSCR/SET_SR flags). -/
structure Sh4Instr where
  op : Sh4Op
  disp : Nat
  cycles : Nat
  delayed : Bool
  branch : Bool
  set_fpscr : Bool
  set_sr : Bool
deriving DecidableEq

/-- `(int8_t)d` : sign extension of an 8-bit displacement. -/
def sext8 (d : Nat) : Int :=
  if d % 256 < 128 then ((d % 256 : Nat) : Int) else ((d % 256 : Nat) : Int) - 256

/-- `((disp & 0xfff) << 20) >> 20` : sign extension of a 12-bit displacement. -/
def sext12 (d : Nat) : Int :=
  if d % 4096 < 2048 then ((d % 4096 : Nat) : Int) else ((d % 4096 : Nat) : Int) - 4096

/-- Truncate an `Int` to a `uint32_t` value. -/
def u32addr (x : Int) : Nat := (x.emod 4294967296).toNat

/-- The decoding loop of `sh4_frontend_analyze_code`. `de` abstracts
`guest->r16` composed with `sh4_disasm` (the disassembler itself is not
part of the analyzed sources): `de a = none` models `sh4_disasm`
returning 0 at address `a`. The source loop is unbounded; `fuel` bounds
it here, `none` standing for non-return. The two `CHECK`s on the delay
slot and the `LOG_FATAL` on an unexpected branch op are fatal in the
source and also map to `none`. -/
def sh4_analyze_loop (de : Nat → Option Sh4Instr) (guest_addr : Nat) :
    AnalyzeRes → Nat → Option AnalyzeRes
  | _, 0 => none
  | m, fuel + 1 =>
    let addr := (guest_addr + m.size) % 4294967296
    match de addr with
    | none => none
    | some i =>
      let m1 : AnalyzeRes :=
        { m with
          num_cycles := m.num_cycles + i.cycles,
          num_instrs := m.num_instrs + 1, size := m.size + 2 }
      let md : Option AnalyzeRes :=
        if i.delayed then
          match de ((guest_addr + m1.size) % 4294967296) with
          | none => none
          | some di =>
            if di.delayed then none
            else some { m1 with
              num_cycles := m1.num_cycles + di.cycles,
              num_instrs := m1.num_instrs + 1, size := m1.size + 2 }
        else some m1
      match md with
      | none => none
      | some m2 =>
        if i.branch then
          match i.op with
          | .BF => some { m2 with
              branch_type := .static_false,
              branch_addr := u32addr ((addr : Int) + 4 + 2 * sext8 i.disp),
              next_addr := (addr + 2) % 4294967296 }
          | .BFS => some { m2 with
              branch_type := .static_false,
              branch_addr := u32addr ((addr : Int) + 4 + 2 * sext8 i.disp),
              next_addr := (addr + 4) % 4294967296 }
          | .BT => some { m2 with
              branch_type := .static_true,
              branch_addr := u32addr ((addr : Int) + 4 + 2 * sext8 i.disp),
              next_addr := (addr + 2) % 4294967296 }
          | .BTS => some { m2 with
              branch_type := .static_true,
              branch_addr := u32addr ((addr : Int) + 4 + 2 * sext8 i.disp),
              next_addr := (addr + 4) % 4294967296 }
          | .BRA => some { m2 with
              branch_type := .static,
              branch_addr := u32addr ((addr : Int) + 4 + 2 * sext12 i.disp) }
          | .BRAF => some { m2 with branch_type := .dynamic }
          | .BSR => some { m2 with
              branch_type := .static,
              branch_addr := u32addr ((addr : Int) + 4 + 2 * sext12 i.disp) }
          | .BSRF => some { m2 with branch_type := .dynamic }
          | .JMP => some { m2 with branch_type := .dynamic }
          | .JSR => some { m2 with branch_type := .dynamic }
          | .RTS => some { m2 with branch_type := .dynamic }
          | .RTE => some { m2 with branch_type := .dynamic }
          | .TRAPA => some { m2 with branch_type := .dynamic }
          | .other => none
        else if i.set_fpscr || i.set_sr then
          some { m2 with branch_type := .fall_through }
        else
          sh4_analyze_loop de guest_addr m2 fuel

/-- `sh4_frontend_analyze_code`: zeroes the accumulators and runs the
decoding loop; the remaining meta fields keep the values assigned by
`jit_alloc_meta` (branch/next = `INVALID_ADDR`, branch type 0). -/
def sh4_frontend_analyze_code (de : Nat → Option Sh4Instr) (guest_addr : Nat)
    (fuel : Nat) : Option AnalyzeRes :=
  sh4_analyze_loop de guest_addr
    { branch_type := .fall_through, branch_addr := INVALID_ADDR,
      next_addr := INVALID_ADDR, num_instrs := 0, num_cycles := 0, size := 0 } fuel

/-! ## JIT coordinator data model (jit.h / jit.c) -/

/-- External calls made by the coordinator, newest first. -/
inductive Event where
  | backend_reset
  | frontend_analyze (addr : Nat)
  | guest_cache (addr host : Nat)
  | guest_invalidate (addr : Nat)
  | patch_edge (branch host : Nat)
  | restore_edge (branch addr : Nat)
deriving DecidableEq

/-- `struct jit_block_meta`; `refs` is the length of `compile_refs`. -/
structure BlockMeta where
  guest_addr : Nat
  branch_type : BranchType
  branch_addr : Nat
  next_addr : Nat
  num_instrs : Nat
  num_cycles : Nat
  size : Nat
  refs : Nat
  visited : Nat
deriving DecidableEq

/-- `struct jit_compile_unit` tree; `leaf` is the C null pointer, a node
holds the owning code id (`parent`), the meta's guest address, and the
`branch` / `next` children. -/
inductive CompileUnit where
  | leaf
  | node (parent : Nat) (meta_addr : Nat) (branch : CompileUnit) (next : CompileUnit)
deriving DecidableEq

/-- Guest addresses of the metas referenced by a compile-unit tree,
root first, `branch` subtree before `next` subtree. -/
def unitAddrs : CompileUnit → List Nat
  | .leaf => []
  | .node _ a b n => a :: (unitAddrs b ++ unitAddrs n)

/-- `struct jit_code`. -/
structure JitCode where
  id : Nat
  guest_addr : Nat
  fastmem : Bool
  root_unit : CompileUnit
  host_addr : Nat
  host_size : Nat
deriving DecidableEq

/-- `struct jit_edge`: `src`/`dst` are code ids, `branch` the host address
of the branch instruction. -/
structure JitEdge where
  src : Nat
  dst : Nat
  branch : Nat
  patched : Bool
deriving DecidableEq

/-- The coordinator state (`struct jit` plus the guest's dispatch table,
which `jit_is_stale` reads back through `guest->lookup_code`). -/
structure JitState where
  metas : List BlockMeta
  codes : List JitCode
  code_map : List (Nat × Nat)
  code_rmap : List (Nat × Nat)
  edges : List JitEdge
  dispatch : List (Nat × Nat)
  visit_token : Nat
  next_id : Nat
  events : List Event
deriving DecidableEq

/-- State after `jit_create`/`jit_init`: empty caches. -/
def jitInit : JitState :=
  { metas := [], codes := [], code_map := [], code_rmap := [], edges := [],
    dispatch := [], visit_token := 0, next_id := 0, events := [] }

/-- The coordinator's collaborators: the frontend's `analyze_code`, the
backend's `assemble_code` (`some (host_addr, host_size)` on success,
`none` on overflow) and `handle_exception`, and the build-time default of
the fastmem flag (1 in release builds, 0 with `!NDEBUG`). -/
structure JitEnv where
  analyze : Nat → Option AnalyzeRes
  assemble : Nat → Option (Nat × Nat)
  handle_ex : Nat → Bool
  fastmem_default : Bool

/-! ## Lookup helpers -/

/-- Dereference a code id ("pointer") in the heap. -/
def codeFind (s : JitState) (i : Nat) : Option JitCode :=
  s.codes.find? (fun c => c.id == i)

/-- Replace the code object behind id `i` (a write through the pointer). -/
def updateCode (s : JitState) (i : Nat) (g : JitCode → JitCode) : JitState :=
  { s with codes := s.codes.map (fun c => if c.id == i then g c else c) }

/-- `jit_lookup_meta`: `rb_find_entry` on the meta map. -/
def jit_lookup_meta (s : JitState) (addr : Nat) : Option BlockMeta :=
  s.metas.find? (fun m => m.guest_addr == addr)

/-- `jit_lookup_code`: `rb_find_entry` on the forward code map. -/
def jit_lookup_code (s : JitState) (addr : Nat) : Option JitCode :=
  match s.code_map.find? (fun kv => kv.1 == addr) with
  | none => none
  | some kv => codeFind s kv.2

/-- Greatest entry with key `≤ p` of a key-sorted list: the element
`rb_upper_bound` steps back to (`rb_prev`, or `rb_last` when there is no
upper bound); `none` models `rit == first`. -/
def rmapPred : List (Nat × Nat) → Nat → Option (Nat × Nat)
  | [], _ => none
  | e :: rest, p =>
    if e.1 ≤ p then
      match rmapPred rest p with
      | some e2 => some e2
      | none => some e
    else none

/-- `jit_lookup_code_reverse`: upper-bound search in the reverse map
followed by the `[host_addr, host_addr + host_size)` range check. -/
def jit_lookup_code_reverse (s : JitState) (p : Nat) : Option JitCode :=
  match rmapPred s.code_rmap p with
  | none => none
  | some e =>
    match codeFind s e.2 with
    | none => none
    | some c =>
      if p < c.host_addr ∨ p ≥ c.host_addr + c.host_size then none else some c

/-- The guest dispatch table lookup (`guest->lookup_code`). -/
def dispatchFind (s : JitState) (addr : Nat) : Option Nat :=
  match s.dispatch.find? (fun kv => kv.1 == addr) with
  | none => none
  | some kv => some kv.2

/-- `jit_is_stale`: the guest dispatcher no longer maps the code's guest
address to its host address. -/
def jit_is_stale (s : JitState) (c : JitCode) : Bool :=
  !(dispatchFind s c.guest_addr == some c.host_addr)

/-- `guest->cache_code`: (re)bind a guest address in the dispatch table. -/
def guestCacheCode (s : JitState) (addr host : Nat) : JitState :=
  { s with dispatch := (addr, host) :: s.dispatch.filter (fun kv => !(kv.1 == addr)),
           events := Event.guest_cache addr host :: s.events }

/-- `guest->invalidate_code`: drop a guest address from the dispatch table. -/
def guestInvalidate (s : JitState) (addr : Nat) : JitState :=
  { s with dispatch := s.dispatch.filter (fun kv => !(kv.1 == addr)),
           events := Event.guest_invalidate addr :: s.events }

/-! ## Meta and compile-unit management -/

/-- Write back a meta record (the map holds at most one meta per address). -/
def setMeta (s : JitState) (addr : Nat) (m : BlockMeta) : JitState :=
  { s with metas := s.metas.map (fun x => if x.guest_addr == addr then m else x) }

/-- `list_add(&meta->compile_refs, ...)`: a compile unit now references
the meta. -/
def incRefs (s : JitState) (addr : Nat) : JitState :=
  { s with metas := s.metas.map (fun x =>
      if x.guest_addr == addr then { x with refs := x.refs + 1 } else x) }

/-- `list_remove(&unit->meta->compile_refs, ...)`. -/
def decRefs (s : JitState) (addr : Nat) : JitState :=
  { s with metas := s.metas.map (fun x =>
      if x.guest_addr == addr then { x with refs := x.refs - 1 } else x) }

/-- `jit_free_meta`: `CHECK(list_empty(&meta->compile_refs))` (fatal when
violated), then unlink and free. -/
def jit_free_meta (s : JitState) (addr : Nat) : Option JitState :=
  match jit_lookup_meta s addr with
  | none => none
  | some m =>
    if m.refs ≠ 0 then none
    else some { s with metas := s.metas.filter (fun x => !(x.guest_addr == addr)) }

/-- `jit_free_compile_unit`: free the tree, removing each unit from its
meta's `compile_refs`; the caller's pointer is nulled by the caller. -/
def jit_free_compile_unit (s : JitState) : CompileUnit → JitState
  | .leaf => s
  | .node _ a b n =>
    let s1 := jit_free_compile_unit s b
    let s2 := jit_free_compile_unit s1 n
    decRefs s2 a

/-! ## Edge management -/

def hostAddrOf (s : JitState) (i : Nat) : Nat :=
  match codeFind s i with
  | some c => c.host_addr
  | none => 0

def guestAddrOf (s : JitState) (i : Nat) : Nat :=
  match codeFind s i with
  | some c => c.guest_addr
  | none => 0

/-- One pass of `jit_patch_edges`: patch every unpatched edge selected by
`sel`, calling `guest->patch_edge(edge->branch, edge->dst->host_addr)`. -/
def patchPass (s : JitState) (sel : JitEdge → Bool) : JitState :=
  let todo := s.edges.filter (fun e => sel e && !e.patched)
  { s with
    edges := s.edges.map (fun e => if sel e && !e.patched then { e with patched := true } else e),
    events := (todo.map (fun e => Event.patch_edge e.branch (hostAddrOf s e.dst))) ++ s.events }

/-- `jit_patch_edges`: incoming edges first, then outgoing. -/
def jit_patch_edges (s : JitState) (cid : Nat) : JitState :=
  let s1 := patchPass s (fun e => e.dst == cid)
  patchPass s1 (fun e => e.src == cid)

/-- `jit_restore_edges`: restore the patched incoming edges through
`guest->restore_edge(edge->branch, edge->dst->guest_addr)`. -/
def jit_restore_edges (s : JitState) (cid : Nat) : JitState :=
  let todo := s.edges.filter (fun e => e.dst == cid && e.patched)
  { s with
    edges := s.edges.map (fun e =>
      if e.dst == cid && e.patched then { e with patched := false } else e),
    events := (todo.map (fun e => Event.restore_edge e.branch (guestAddrOf s e.dst))) ++ s.events }

/-! ## Invalidation and freeing -/

/-- Body of `jit_invalidate_code` once the code pointer `c` has been
dereferenced: free the compile-unit tree (nulling `code->root_unit`),
drop the guest dispatch entry, restore incoming edges, then destroy
every in- and out-edge (each unlinked from both endpoint lists and
freed). -/
def jit_invalidate_body (s : JitState) (cid : Nat) (c : JitCode) : JitState :=
  let s1 := jit_free_compile_unit s c.root_unit
  let s2 := updateCode s1 cid (fun x => { x with root_unit := .leaf })
  let s3 := guestInvalidate s2 c.guest_addr
  let s4 := jit_restore_edges s3 cid
  { s4 with edges := s4.edges.filter (fun e => !(e.src == cid || e.dst == cid)) }

/-- `jit_invalidate_code` (the id plays the role of the C pointer). -/
def jit_invalidate_code (s : JitState) (cid : Nat) : JitState :=
  match codeFind s cid with
  | none => s
  | some c => jit_invalidate_body s cid c

/-- `jit_free_code`: invalidate, unlink from both maps (guarded by
`rb_empty_node` in C, hence a plain removal here), free the object. -/
def jit_free_code (s : JitState) (cid : Nat) : JitState :=
  let s1 := jit_invalidate_code s cid
  { s1 with
    code_map := s1.code_map.filter (fun kv => !(kv.2 == cid)),
    code_rmap := s1.code_rmap.filter (fun kv => !(kv.2 == cid)),
    codes := s1.codes.filter (fun c => !(c.id == cid)) }

/-- The zeroed code object of `jit_alloc_code` with the fields
`jit_compile_code` initializes right after the call. -/
def allocCode (s : JitState) (guest_addr : Nat) (fastmem : Bool) : JitCode :=
  { id := s.next_id, guest_addr := guest_addr, fastmem := fastmem,
    root_unit := .leaf, host_addr := 0, host_size := 0 }

/-- `jit_alloc_code` plus the field initialization done by
`jit_compile_code` right after the call. -/
def jit_alloc_code (s : JitState) (guest_addr : Nat) (fastmem : Bool) :
    JitState × Nat :=
  ({ s with codes := allocCode s guest_addr fastmem :: s.codes,
            next_id := s.next_id + 1 }, s.next_id)

/-- `jit_free_cache`: free every code reachable from the forward map,
`CHECK` both trees empty, free every meta (each `CHECK`ing its refs),
`CHECK` the meta tree empty, then `backend->reset`. -/
def jit_free_cache (s : JitState) : Option JitState :=
  let s1 := (s.code_map.map (fun kv => kv.2)).foldl jit_free_code s
  if s1.code_map.isEmpty && s1.code_rmap.isEmpty then
    match (s1.metas.map (fun m => m.guest_addr)).foldlM jit_free_meta s1 with
    | none => none
    | some s2 =>
      if s2.metas.isEmpty then
        some { s2 with events := Event.backend_reset :: s2.events }
      else none
  else none

/-- `jit_invalidate_cache`: invalidate every code without touching the
lookup maps, then free all metas (`CHECK`ing the meta tree empty). -/
def jit_invalidate_cache (s : JitState) : Option JitState :=
  let s1 := (s.code_map.map (fun kv => kv.2)).foldl jit_invalidate_code s
  match (s1.metas.map (fun m => m.guest_addr)).foldlM jit_free_meta s1 with
  | none => none
  | some s2 => if s2.metas.isEmpty then some s2 else none

/-! ## Finalization and edges between code -/

/-- Key-sorted insertion, equal keys placed after existing ones
(`rb_insert` descends right on a non-negative comparison). -/
def sortedInsert (l : List (Nat × Nat)) (e : Nat × Nat) : List (Nat × Nat) :=
  match l with
  | [] => [e]
  | x :: xs => if x.1 ≤ e.1 then x :: sortedInsert xs e else e :: x :: xs

/-- `jit_finalize_code`: `CHECK` no edges and not yet in either map
(fatal when violated), bind the dispatch entry, insert into both maps.
The perf-map line is emitted only under `OPTION_perf` and is not
modelled. -/
def jit_finalize_code (s : JitState) (cid : Nat) : Option JitState :=
  match codeFind s cid with
  | none => none
  | some c =>
    if s.edges.any (fun e => e.src == cid || e.dst == cid) then none
    else if s.code_map.any (fun kv => kv.2 == cid) ||
            s.code_rmap.any (fun kv => kv.2 == cid) then none
    else
      let s1 := guestCacheCode s c.guest_addr c.host_addr
      some { s1 with
             code_map := sortedInsert s1.code_map (c.guest_addr, cid),
             code_rmap := sortedInsert s1.code_rmap (c.host_addr, cid) }

/-- `jit_add_edge`. The source performs `jit_is_stale(jit, src)` without
checking `src` for null: when the reverse lookup fails the C code
dereferences a null pointer, modelled by `none`. -/
def jit_add_edge (s : JitState) (branch addr : Nat) : Option JitState :=
  let src? := jit_lookup_code_reverse s branch
  let dst? := jit_lookup_code s addr
  match src? with
  | none => none
  | some src =>
    if jit_is_stale s src || dst?.isNone then some s
    else
      match dst? with
      | none => some s
      | some dst =>
        let e : JitEdge := { src := src.id, dst := dst.id, branch := branch, patched := false }
        let s1 := { s with edges := e :: s.edges }
        some (jit_patch_edges s1 src.id)

/-! ## Analysis walk (jit_analyze_code_r) -/

/-- The meta built by `jit_alloc_meta` (calloc plus the two
`INVALID_ADDR` assignments). -/
def freshMeta (addr : Nat) : BlockMeta :=
  { guest_addr := addr, branch_type := .fall_through,
    branch_addr := INVALID_ADDR, next_addr := INVALID_ADDR,
    num_instrs := 0, num_cycles := 0, size := 0, refs := 0, visited := 0 }

/-- `jit_alloc_meta`: insert a fresh meta; the following
`frontend->analyze_code` call is recorded as an event here since the two
always happen together in `jit_analyze_code_r`. -/
def allocMeta (s : JitState) (addr : Nat) : JitState :=
  { s with metas := freshMeta addr :: s.metas,
           events := Event.frontend_analyze addr :: s.events }

/-- The fields `analyze_code` writes into the fresh meta. -/
def metaApply (m0 : BlockMeta) (r : AnalyzeRes) : BlockMeta :=
  { m0 with branch_type := r.branch_type, branch_addr := r.branch_addr,
            next_addr := r.next_addr, num_instrs := r.num_instrs,
            num_cycles := r.num_cycles, size := r.size }

/-- Lines 340–357 of `jit_analyze_code_r`: look up or create the meta for
`addr`. `(s, none)` prunes the branch (already visited this walk, or the
frontend's `analyze_code` failed and the fresh meta was discarded);
the overall `none` is the fatal `CHECK` inside `jit_free_meta`. -/
def jit_meta_for_addr (env : JitEnv) (s : JitState) (addr : Nat) :
    Option (JitState × Option BlockMeta) :=
  match jit_lookup_meta s addr with
  | some m =>
    if m.visited == s.visit_token then some (s, none)
    else some (s, some m)
  | none =>
    match env.analyze addr with
    | none =>
      match jit_free_meta (allocMeta s addr) addr with
      | none => none
      | some s2 => some (s2, none)
    | some r =>
      some (setMeta (allocMeta s addr) addr (metaApply (freshMeta addr) r),
            some (metaApply (freshMeta addr) r))

/-- `jit_analyze_code_r`: the depth-first walk. Returns the built subtree
(`.leaf` = pruned/null); recursion is bounded by `fuel` (the source
recursion is bounded by the number of unstamped guest addresses). -/
def jit_analyze_code_r (env : JitEnv) (s : JitState) (cid : Nat) (addr : Nat) :
    Nat → Option (JitState × CompileUnit)
  | 0 => none
  | fuel + 1 =>
    if addr = INVALID_ADDR then some (s, .leaf)
    else
      match jit_meta_for_addr env s addr with
      | none => none
      | some (s1, none) => some (s1, .leaf)
      | some (s1, some m) =>
        let s2 := setMeta s1 addr { m with visited := s1.visit_token }
        let s3 := incRefs s2 addr
        match jit_analyze_code_r env s3 cid m.branch_addr fuel with
        | none => none
        | some (s4, ub) =>
          match jit_analyze_code_r env s4 cid m.next_addr fuel with
          | none => none
          | some (s5, un) => some (s5, .node cid addr ub un)

/-- `jit_analyze_code`: bump the visit token, walk from the code's guest
address, store the root unit, `CHECK_NOTNULL(code->root_unit)` (fatal
when the root itself could not be analyzed). -/
def jit_analyze_code (env : JitEnv) (s : JitState) (cid : Nat) (addr : Nat)
    (fuel : Nat) : Option JitState :=
  let s1 := { s with visit_token := s.visit_token + 1 }
  match jit_analyze_code_r env s1 cid addr fuel with
  | none => none
  | some (s2, u) =>
    if u = .leaf then none
    else some (updateCode s2 cid (fun c => { c with root_unit := u }))

/-! ## Compilation and the exception handler -/

/-- `jit_compile_code`. The IR translation and the six optimization
passes mutate only the per-compilation IR arena, never the coordinator
state, and are not modelled. -/
def jit_compile_code (env : JitEnv) (s : JitState) (guest_addr : Nat)
    (fuel : Nat) : Option JitState :=
  let existing := jit_lookup_code s guest_addr
  let fastmem := match existing with
    | some c => c.fastmem
    | none => env.fastmem_default
  let s1 := match existing with
    | some c => jit_free_code s c.id
    | none => s
  let p := jit_alloc_code s1 guest_addr fastmem
  match jit_analyze_code env p.1 p.2 guest_addr fuel with
  | none => none
  | some s2 =>
    match env.assemble guest_addr with
    | some hs =>
      let s3 := updateCode s2 p.2 (fun c => { c with host_addr := hs.1, host_size := hs.2 })
      jit_finalize_code s3 p.2
    | none =>
      let s3 := jit_free_code s2 p.2
      jit_free_cache s3

/-- `jit_handle_exception`: reverse-look up the faulting pc, let the
backend try to patch the fault, and on success clear the code's fastmem
flag and invalidate it (leaving it in the lookup maps). -/
def jit_handle_exception (env : JitEnv) (s : JitState) (pc : Nat) :
    Nat × JitState :=
  match jit_lookup_code_reverse s pc with
  | none => (0, s)
  | some code =>
    if env.handle_ex pc then
      let s1 := updateCode s code.id (fun c => { c with fastmem := false })
      (1, jit_invalidate_code s1 code.id)
    else (0, s)

/-! ## Public operation language -/

/-- The coordinator's public entry points. -/
inductive JitOp where
  | compile (addr : Nat)
  | add_edge (branch addr : Nat)
  | handle_ex (pc : Nat)
  | invalidate_cache
  | free_cache
deriving DecidableEq

/-- Walk fuel large enough for any guest CFG (2^32 addresses). -/
def jitFuel : Nat := 4294967296

def jit_step (env : JitEnv) (s : JitState) : JitOp → Option JitState
  | .compile addr => jit_compile_code env s addr jitFuel
  | .add_edge branch addr => jit_add_edge s branch addr
  | .handle_ex pc => some (jit_handle_exception env s pc).2
  | .invalidate_cache => jit_invalidate_cache s
  | .free_cache => jit_free_cache s

def jit_run (env : JitEnv) (s : JitState) : List JitOp → Option JitState
  | [] => some s
  | op :: ops =>
    match jit_step env s op with
    | none => none
    | some s1 => jit_run env s1 ops

/-! ## Generic list lemmas -/

theorem map_eq_self_of {α : Type} {l : List α} {f : α → α}
    (h : ∀ x ∈ l, f x = x) : l.map f = l := by
  induction l with
  | nil => rfl
  | cons a t ih =>
    simp only [List.map_cons, h a (List.mem_cons_self a t)]
    rw [ih (fun x hx => h x (List.mem_cons_of_mem a hx))]

theorem filter_eq_self_of {α : Type} {l : List α} {p : α → Bool}
    (h : ∀ x ∈ l, p x = true) : l.filter p = l :=
  List.filter_eq_self.mpr h

/-! ## Frame lemmas: which state fields each primitive touches -/

theorem free_unit_frame (s : JitState) (u : CompileUnit) :
    (jit_free_compile_unit s u).codes = s.codes ∧
    (jit_free_compile_unit s u).edges = s.edges ∧
    (jit_free_compile_unit s u).code_map = s.code_map ∧
    (jit_free_compile_unit s u).code_rmap = s.code_rmap ∧
    (jit_free_compile_unit s u).dispatch = s.dispatch ∧
    (jit_free_compile_unit s u).events = s.events ∧
    (jit_free_compile_unit s u).visit_token = s.visit_token ∧
    (jit_free_compile_unit s u).next_id = s.next_id := by
  induction u generalizing s with
  | leaf => simp [jit_free_compile_unit]
  | node p a b n ihb ihn =>
    simp only [jit_free_compile_unit]
    obtain ⟨h1, h2, h3, h4, h5, h6, h7, h8⟩ := ihb s
    obtain ⟨g1, g2, g3, g4, g5, g6, g7, g8⟩ := ihn (jit_free_compile_unit s b)
    simp [decRefs, g1, g2, g3, g4, g5, g6, g7, g8,
      h1, h2, h3, h4, h5, h6, h7, h8]

theorem codeFind_of_codes_eq {s t : JitState} (h : s.codes = t.codes) (j : Nat) :
    codeFind s j = codeFind t j := by
  simp [codeFind, h]

theorem codeFind_updateCode (s : JitState) (i : Nat) (g : JitCode → JitCode)
    (j : Nat) :
    codeFind (updateCode s i g) j =
      (s.codes.find? (fun c => (if c.id == i then g c else c).id == j)).map
        (fun c => if c.id == i then g c else c) := by
  simp [codeFind, updateCode, List.find?_map, Function.comp_def]

/-! ## C10 : exception handler declines without touching state -/

/-- C10: if the reverse lookup finds no code containing `ex.pc`, or the
backend's `handle_exception` returns 0, then `jit_handle_exception`
returns 0 and leaves the JIT state unchanged. -/
theorem jit_C10_exception_decline (env : JitEnv) (s : JitState) (pc : Nat)
    (h : jit_lookup_code_reverse s pc = none ∨ env.handle_ex pc = false) :
    jit_handle_exception env s pc = (0, s) := by
  unfold jit_handle_exception
  rcases h with h | h
  · simp [h]
  · cases hl : jit_lookup_code_reverse s pc <;> simp [h]

/-- A concrete state with one finalized code: id 0, guest 0x100, host
range [0x1000, 0x1010), dispatch entry installed. -/
def stateOne : JitState :=
  { metas := [], codes := [{ id := 0, guest_addr := 256, fastmem := true, root_unit := .leaf,
                             host_addr := 4096, host_size := 16 }],
    code_map := [(256, 0)], code_rmap := [(4096, 0)], edges := [],
    dispatch := [(256, 4096)], visit_token := 1, next_id := 1, events := [] }

/-- An environment whose backend declines every exception. -/
def envDecline : JitEnv :=
  { analyze := fun _ => none, assemble := fun _ => none,
    handle_ex := fun _ => false, fastmem_default := true }

theorem jit_C10_witness :
    jit_lookup_code_reverse stateOne 9999 = none ∧
    jit_handle_exception envDecline stateOne 9999 = (0, stateOne) :=
  ⟨by decide, jit_C10_exception_decline envDecline stateOne 9999 (Or.inl (by decide))⟩

/-! ## C5 : add_edge with a freed source code -/

/-- C5 (code bug): `jit_add_edge` with a `branch` host address inside no
live code's range passes the null `src` straight to `jit_is_stale`, which
dereferences it — the call does not return silently (modelled `none`).
The claim's other two triggers do behave as stated: with a live,
non-stale source and an absent destination the call returns leaving the
state untouched (second conjunct: no edge allocated, no event emitted,
nothing patched). -/
theorem jit_C5_add_edge_null_src :
    jit_add_edge jitInit 5000 4096 = none ∧
    jit_add_edge stateOne 4100 9999 = some stateOne := by decide

/-! ## Projection equations for the primitive state transformers -/

theorem updateCode_metas (s : JitState) (i : Nat) (g : JitCode → JitCode) :
    (updateCode s i g).metas = s.metas := rfl
theorem updateCode_edges (s : JitState) (i : Nat) (g : JitCode → JitCode) :
    (updateCode s i g).edges = s.edges := rfl
theorem updateCode_map (s : JitState) (i : Nat) (g : JitCode → JitCode) :
    (updateCode s i g).code_map = s.code_map := rfl
theorem updateCode_rmap (s : JitState) (i : Nat) (g : JitCode → JitCode) :
    (updateCode s i g).code_rmap = s.code_rmap := rfl
theorem updateCode_dispatch (s : JitState) (i : Nat) (g : JitCode → JitCode) :
    (updateCode s i g).dispatch = s.dispatch := rfl
theorem updateCode_events (s : JitState) (i : Nat) (g : JitCode → JitCode) :
    (updateCode s i g).events = s.events := rfl
theorem updateCode_token (s : JitState) (i : Nat) (g : JitCode → JitCode) :
    (updateCode s i g).visit_token = s.visit_token := rfl
theorem updateCode_next_id (s : JitState) (i : Nat) (g : JitCode → JitCode) :
    (updateCode s i g).next_id = s.next_id := rfl
theorem updateCode_codes (s : JitState) (i : Nat) (g : JitCode → JitCode) :
    (updateCode s i g).codes = s.codes.map (fun c => if c.id == i then g c else c) := rfl

theorem guestInvalidate_codes (s : JitState) (a : Nat) :
    (guestInvalidate s a).codes = s.codes := rfl
theorem guestInvalidate_metas (s : JitState) (a : Nat) :
    (guestInvalidate s a).metas = s.metas := rfl
theorem guestInvalidate_edges (s : JitState) (a : Nat) :
    (guestInvalidate s a).edges = s.edges := rfl
theorem guestInvalidate_map (s : JitState) (a : Nat) :
    (guestInvalidate s a).code_map = s.code_map := rfl
theorem guestInvalidate_rmap (s : JitState) (a : Nat) :
    (guestInvalidate s a).code_rmap = s.code_rmap := rfl
theorem guestInvalidate_dispatch (s : JitState) (a : Nat) :
    (guestInvalidate s a).dispatch = s.dispatch.filter (fun kv => !(kv.1 == a)) := rfl
theorem guestInvalidate_events (s : JitState) (a : Nat) :
    (guestInvalidate s a).events = Event.guest_invalidate a :: s.events := rfl
theorem guestInvalidate_token (s : JitState) (a : Nat) :
    (guestInvalidate s a).visit_token = s.visit_token := rfl
theorem guestInvalidate_next_id (s : JitState) (a : Nat) :
    (guestInvalidate s a).next_id = s.next_id := rfl

theorem restore_edges_codes (s : JitState) (cid : Nat) :
    (jit_restore_edges s cid).codes = s.codes := rfl
theorem restore_edges_metas (s : JitState) (cid : Nat) :
    (jit_restore_edges s cid).metas = s.metas := rfl
theorem restore_edges_map (s : JitState) (cid : Nat) :
    (jit_restore_edges s cid).code_map = s.code_map := rfl
theorem restore_edges_rmap (s : JitState) (cid : Nat) :
    (jit_restore_edges s cid).code_rmap = s.code_rmap := rfl
theorem restore_edges_dispatch (s : JitState) (cid : Nat) :
    (jit_restore_edges s cid).dispatch = s.dispatch := rfl
theorem restore_edges_token (s : JitState) (cid : Nat) :
    (jit_restore_edges s cid).visit_token = s.visit_token := rfl
theorem restore_edges_next_id (s : JitState) (cid : Nat) :
    (jit_restore_edges s cid).next_id = s.next_id := rfl
theorem restore_edges_edges (s : JitState) (cid : Nat) :
    (jit_restore_edges s cid).edges = s.edges.map (fun e =>
      if e.dst == cid && e.patched then { e with patched := false } else e) := rfl
theorem restore_edges_events (s : JitState) (cid : Nat) :
    (jit_restore_edges s cid).events =
      ((s.edges.filter (fun e => e.dst == cid && e.patched)).map
        (fun e => Event.restore_edge e.branch (guestAddrOf s e.dst))) ++ s.events := rfl

theorem setMeta_codes (s : JitState) (a : Nat) (m : BlockMeta) :
    (setMeta s a m).codes = s.codes := rfl
theorem setMeta_edges (s : JitState) (a : Nat) (m : BlockMeta) :
    (setMeta s a m).edges = s.edges := rfl
theorem setMeta_map (s : JitState) (a : Nat) (m : BlockMeta) :
    (setMeta s a m).code_map = s.code_map := rfl
theorem setMeta_rmap (s : JitState) (a : Nat) (m : BlockMeta) :
    (setMeta s a m).code_rmap = s.code_rmap := rfl
theorem setMeta_dispatch (s : JitState) (a : Nat) (m : BlockMeta) :
    (setMeta s a m).dispatch = s.dispatch := rfl
theorem setMeta_events (s : JitState) (a : Nat) (m : BlockMeta) :
    (setMeta s a m).events = s.events := rfl
theorem setMeta_token (s : JitState) (a : Nat) (m : BlockMeta) :
    (setMeta s a m).visit_token = s.visit_token := rfl
theorem setMeta_next_id (s : JitState) (a : Nat) (m : BlockMeta) :
    (setMeta s a m).next_id = s.next_id := rfl

theorem incRefs_codes (s : JitState) (a : Nat) : (incRefs s a).codes = s.codes := rfl
theorem incRefs_events (s : JitState) (a : Nat) : (incRefs s a).events = s.events := rfl
theorem incRefs_token (s : JitState) (a : Nat) : (incRefs s a).visit_token = s.visit_token := rfl
theorem incRefs_next_id (s : JitState) (a : Nat) : (incRefs s a).next_id = s.next_id := rfl
theorem incRefs_map (s : JitState) (a : Nat) : (incRefs s a).code_map = s.code_map := rfl
theorem incRefs_rmap (s : JitState) (a : Nat) : (incRefs s a).code_rmap = s.code_rmap := rfl
theorem incRefs_edges (s : JitState) (a : Nat) : (incRefs s a).edges = s.edges := rfl
theorem incRefs_dispatch (s : JitState) (a : Nat) : (incRefs s a).dispatch = s.dispatch := rfl

theorem decRefs_codes (s : JitState) (a : Nat) : (decRefs s a).codes = s.codes := rfl
theorem decRefs_events (s : JitState) (a : Nat) : (decRefs s a).events = s.events := rfl

/-! ## C7 : invalidate twice equals invalidate once -/

theorem codeFind_map_ite (l : List JitCode) (i j : Nat) (g : JitCode → JitCode)
    (hg : ∀ x, (g x).id = x.id) :
    (l.map (fun c => if c.id == i then g c else c)).find? (fun c => c.id == j) =
      (l.find? (fun c => c.id == j)).map (fun c => if c.id == i then g c else c) := by
  induction l with
  | nil => rfl
  | cons x t ih =>
    have hid : (if x.id == i then g x else x).id = x.id := by
      split
      · exact hg x
      · rfl
    cases hb : (x.id == j) with
    | true =>
      have h1 : ((x :: t).find? fun c => c.id == j) = some x :=
        List.find?_cons_of_pos _ (by simp [hb])
      have h2 : (((x :: t).map (fun c => if c.id == i then g c else c)).find?
          (fun c => c.id == j)) = some (if x.id == i then g x else x) := by
        rw [List.map_cons]
        exact List.find?_cons_of_pos _ (by rw [hid]; simp [hb])
      rw [h1, h2]
      rfl
    | false =>
      have h1 : ((x :: t).find? fun c => c.id == j) = t.find? fun c => c.id == j :=
        List.find?_cons_of_neg _ (by simp [hb])
      have h2 : (((x :: t).map (fun c => if c.id == i then g c else c)).find?
          (fun c => c.id == j)) =
          ((t.map (fun c => if c.id == i then g c else c)).find? (fun c => c.id == j)) := by
        rw [List.map_cons]
        exact List.find?_cons_of_neg _ (by rw [hid]; simp [hb])
      rw [h1, h2, ih]

theorem invalidate_eq (s : JitState) (cid : Nat) (c : JitCode)
    (h : codeFind s cid = some c) :
    jit_invalidate_code s cid = jit_invalidate_body s cid c := by
  simp [jit_invalidate_code, h]

theorem invalidate_body_codes (s : JitState) (cid : Nat) (c : JitCode) :
    (jit_invalidate_body s cid c).codes =
      (jit_free_compile_unit s c.root_unit).codes.map
        (fun x => if x.id == cid then { x with root_unit := .leaf } else x) := rfl

theorem invalidate_codes (s : JitState) (cid : Nat) (c : JitCode)
    (h : codeFind s cid = some c) :
    (jit_invalidate_code s cid).codes =
      s.codes.map (fun x => if x.id == cid then { x with root_unit := .leaf } else x) := by
  rw [invalidate_eq s cid c h, invalidate_body_codes, (free_unit_frame s c.root_unit).1]

theorem invalidate_body_edges (s : JitState) (cid : Nat) (c : JitCode) :
    (jit_invalidate_body s cid c).edges =
      ((jit_free_compile_unit s c.root_unit).edges.map (fun e =>
        if e.dst == cid && e.patched then { e with patched := false } else e)).filter
        (fun e => !(e.src == cid || e.dst == cid)) := rfl

theorem invalidate_edge_clean (s : JitState) (cid : Nat) (c : JitCode)
    (h : codeFind s cid = some c) :
    ∀ e ∈ (jit_invalidate_code s cid).edges, (!(e.src == cid || e.dst == cid)) = true := by
  rw [invalidate_eq s cid c h, invalidate_body_edges]
  intro e he
  exact (List.mem_filter.mp he).2

theorem invalidate_body_dispatch (s : JitState) (cid : Nat) (c : JitCode) :
    (jit_invalidate_body s cid c).dispatch =
      (jit_free_compile_unit s c.root_unit).dispatch.filter
        (fun kv => !(kv.1 == c.guest_addr)) := rfl

theorem invalidate_dispatch (s : JitState) (cid : Nat) (c : JitCode)
    (h : codeFind s cid = some c) :
    (jit_invalidate_code s cid).dispatch =
      s.dispatch.filter (fun kv => !(kv.1 == c.guest_addr)) := by
  rw [invalidate_eq s cid c h, invalidate_body_dispatch,
    (free_unit_frame s c.root_unit).2.2.2.2.1]

theorem invalidate_find_self (s : JitState) (cid : Nat) (c : JitCode)
    (h : codeFind s cid = some c) :
    codeFind (jit_invalidate_code s cid) cid = some { c with root_unit := .leaf } := by
  have hc := invalidate_codes s cid c h
  unfold codeFind at h
  have hcc0 := List.find?_some h
  have hcc : (c.id == cid) = true := hcc0
  unfold codeFind
  rw [hc, codeFind_map_ite s.codes cid cid
    (fun x => { x with root_unit := .leaf }) (fun x => rfl), h]
  simp [hcc]
  intro hne
  exact absurd (by simpa using hcc) hne

attribute [ext] JitState

/-- C7: a second `invalidate_code` on the same code finds a null
`root_unit` and no edges, so it only re-issues the guest dispatch
invalidation: every other component of the state (heap, metas, both
maps, edge list, dispatch table) is exactly that of the first call. -/
theorem jit_C7_invalidate_idempotent (s : JitState) (cid : Nat) (c : JitCode)
    (h : codeFind s cid = some c) :
    jit_invalidate_code (jit_invalidate_code s cid) cid =
      { jit_invalidate_code s cid with
        events := Event.guest_invalidate c.guest_addr :: (jit_invalidate_code s cid).events } := by
  have hfind := invalidate_find_self s cid c h
  have hcodes := invalidate_codes s cid c h
  have hclean := invalidate_edge_clean s cid c h
  have hdisp := invalidate_dispatch s cid c h
  have edgeFalse : ∀ e ∈ (jit_invalidate_code s cid).edges, (e.dst == cid) = false := by
    intro e he
    have hcl := hclean e he
    cases hdst : (e.dst == cid) with
    | false => rfl
    | true => rw [hdst] at hcl; simp at hcl
  have hmapid : (jit_invalidate_code s cid).edges.map (fun e =>
      if e.dst == cid && e.patched then { e with patched := false } else e) =
      (jit_invalidate_code s cid).edges := by
    apply map_eq_self_of
    intro e he
    simp [edgeFalse e he]
  have htodo : (jit_invalidate_code s cid).edges.filter
      (fun e => e.dst == cid && e.patched) = [] := by
    rw [List.filter_eq_nil_iff]
    intro e he
    simp [edgeFalse e he]
  have hfilterid : (jit_invalidate_code s cid).edges.filter
      (fun e => !(e.src == cid || e.dst == cid)) = (jit_invalidate_code s cid).edges :=
    filter_eq_self_of hclean
  have hcodesid : (jit_invalidate_code s cid).codes.map (fun x =>
      if x.id == cid then { x with root_unit := CompileUnit.leaf } else x) =
      (jit_invalidate_code s cid).codes := by
    apply map_eq_self_of
    intro x hx
    rw [hcodes] at hx
    obtain ⟨y, hy, rfl⟩ := List.mem_map.mp hx
    by_cases hyc : (y.id == cid) = true
    · simp [hyc]
    · simp [hyc]
  have hdispid : (jit_invalidate_code s cid).dispatch.filter
      (fun kv => !(kv.1 == c.guest_addr)) = (jit_invalidate_code s cid).dispatch := by
    apply filter_eq_self_of
    intro kv hkv
    rw [hdisp] at hkv
    exact (List.mem_filter.mp hkv).2
  rw [invalidate_eq _ cid _ hfind]
  simp only [jit_invalidate_body]
  have hfree : jit_free_compile_unit (jit_invalidate_code s cid)
      ({ c with root_unit := CompileUnit.leaf } : JitCode).root_unit =
      jit_invalidate_code s cid := rfl
  rw [hfree]
  apply JitState.ext <;> dsimp only
  · rw [restore_edges_metas, guestInvalidate_metas, updateCode_metas]
  · rw [restore_edges_codes, guestInvalidate_codes, updateCode_codes, hcodesid]
  · rw [restore_edges_map, guestInvalidate_map, updateCode_map]
  · rw [restore_edges_rmap, guestInvalidate_rmap, updateCode_rmap]
  · rw [restore_edges_edges, guestInvalidate_edges, updateCode_edges, hmapid, hfilterid]
  · rw [restore_edges_dispatch, guestInvalidate_dispatch, updateCode_dispatch, hdispid]
  · rw [restore_edges_token, guestInvalidate_token, updateCode_token]
  · rw [restore_edges_next_id, guestInvalidate_next_id, updateCode_next_id]
  · rw [restore_edges_events, guestInvalidate_edges, updateCode_edges, htodo]
    simp only [List.map_nil, List.nil_append, guestInvalidate_events, updateCode_events]

/-- The single code object of `stateOne`. -/
def codeOne : JitCode :=
  { id := 0, guest_addr := 256, fastmem := true, root_unit := .leaf,
    host_addr := 4096, host_size := 16 }

theorem jit_C7_witness :
    jit_invalidate_code (jit_invalidate_code stateOne 0) 0 =
      { jit_invalidate_code stateOne 0 with
        events := Event.guest_invalidate codeOne.guest_addr ::
          (jit_invalidate_code stateOne 0).events } :=
  jit_C7_invalidate_idempotent stateOne 0 codeOne (by decide)

/-! ## C1 : backend overflow empties the cache -/

theorem free_meta_maps (s : JitState) (a : Nat) (t : JitState)
    (h : jit_free_meta s a = some t) :
    t.code_map = s.code_map ∧ t.code_rmap = s.code_rmap := by
  unfold jit_free_meta at h
  split at h
  · exact absurd h (by simp)
  · split at h
    · exact absurd h (by simp)
    · obtain rfl := Option.some.inj h
      exact ⟨rfl, rfl⟩

theorem foldlM_free_meta_maps (l : List Nat) :
    ∀ s t : JitState, List.foldlM jit_free_meta s l = some t →
      t.code_map = s.code_map ∧ t.code_rmap = s.code_rmap := by
  induction l with
  | nil =>
    intro s t h
    rw [List.foldlM_nil] at h
    obtain rfl := Option.some.inj h
    exact ⟨rfl, rfl⟩
  | cons a l ih =>
    intro s t h
    rw [List.foldlM_cons] at h
    cases hstep : jit_free_meta s a with
    | none => rw [hstep] at h; exact absurd h (by simp)
    | some s1 =>
      rw [hstep] at h
      simp only [Option.bind_eq_bind, Option.some_bind] at h
      obtain ⟨h1, h2⟩ := ih s1 t h
      obtain ⟨g1, g2⟩ := free_meta_maps s a s1 hstep
      exact ⟨h1.trans g1, h2.trans g2⟩

theorem free_cache_spec (s t : JitState) (h : jit_free_cache s = some t) :
    t.code_map = [] ∧ t.code_rmap = [] ∧ t.metas = [] ∧
    t.events.head? = some Event.backend_reset := by
  simp only [jit_free_cache] at h
  split at h
  case isTrue hemp =>
    split at h
    · exact absurd h (by simp)
    case h_2 s2 hfold =>
      split at h
      case isTrue hm =>
        obtain rfl := Option.some.inj h
        obtain ⟨h1, h2⟩ := foldlM_free_meta_maps _ _ _ hfold
        have he1 : ((s.code_map.map (fun kv => kv.2)).foldl jit_free_code s).code_map = [] := by
          have := (Bool.and_eq_true _ _).mp hemp
          simpa using this.1
        have he2 : ((s.code_map.map (fun kv => kv.2)).foldl jit_free_code s).code_rmap = [] := by
          have := (Bool.and_eq_true _ _).mp hemp
          simpa using this.2
        refine ⟨h1.trans he1, h2.trans he2, by simpa using hm, rfl⟩
      case isFalse => exact absurd h (by simp)
  case isFalse => exact absurd h (by simp)

/-- C1: when the backend's `assemble_code` reports overflow,
`jit_compile_code` frees the in-flight code and the whole cache: on
return both code maps and the meta map are empty, `backend->reset` was
the last external call, and no entry for the requested guest address is
in any map. -/
theorem jit_C1_overflow_resets_cache (env : JitEnv) (s : JitState)
    (guest_addr fuel : Nat) (s' : JitState)
    (hasm : env.assemble guest_addr = none)
    (h : jit_compile_code env s guest_addr fuel = some s') :
    s'.code_map = [] ∧ s'.code_rmap = [] ∧ s'.metas = [] ∧
    s'.events.head? = some Event.backend_reset ∧
    jit_lookup_code s' guest_addr = none ∧ jit_lookup_meta s' guest_addr = none := by
  simp only [jit_compile_code, hasm] at h
  split at h
  · exact absurd h (by simp)
  case h_2 s2 han =>
    obtain ⟨h1, h2, h3, h4⟩ := free_cache_spec _ _ h
    refine ⟨h1, h2, h3, h4, ?_, ?_⟩
    · simp [jit_lookup_code, h1]
    · simp [jit_lookup_meta, h3]

/-- An environment whose backend always overflows; the root block at
4096 analyzes as a dynamic branch. -/
def envOverflow : JitEnv :=
  { analyze := fun a =>
      if a = 4096 then
        some { branch_type := .dynamic, branch_addr := INVALID_ADDR,
               next_addr := INVALID_ADDR, num_instrs := 1, num_cycles := 1, size := 2 }
      else none,
    assemble := fun _ => none, handle_ex := fun _ => false, fastmem_default := true }

/-- The state `jit_compile_code` leaves behind on overflow at 4096. -/
def stateOverflow : JitState :=
  { metas := [], codes := [], code_map := [], code_rmap := [], edges := [],
    dispatch := [], visit_token := 1, next_id := 1,
    events := [Event.backend_reset, Event.guest_invalidate 4096,
               Event.frontend_analyze 4096] }

theorem jit_C1_witness :
    stateOverflow.code_map = [] ∧ stateOverflow.code_rmap = [] ∧
    stateOverflow.metas = [] ∧
    stateOverflow.events.head? = some Event.backend_reset ∧
    jit_lookup_code stateOverflow 4096 = none ∧
    jit_lookup_meta stateOverflow 4096 = none :=
  jit_C1_overflow_resets_cache envOverflow jitInit 4096 8 stateOverflow
    (by decide) (by decide)

/-! ## C2 : forward/reverse map consistency and reverse lookup -/

/-- A code id has an entry in the forward map. -/
def InFwd (s : JitState) (i : Nat) : Prop := ∃ k, (k, i) ∈ s.code_map

/-- A code id has an entry in the reverse map. -/
def InRev (s : JitState) (i : Nat) : Prop := ∃ k, (k, i) ∈ s.code_rmap

/-- One past the end of the host range of a reverse-map entry. -/
def entryEnd (s : JitState) (e : Nat × Nat) : Nat :=
  match codeFind s e.2 with
  | some c => c.host_addr + c.host_size
  | none => e.1

/-- The entry's id dereferences to a code whose `host_addr` is the key. -/
def entryResolves (s : JitState) (e : Nat × Nat) : Bool :=
  match codeFind s e.2 with
  | some c => c.host_addr == e.1
  | none => false

/-- Well-formedness of the reverse map: every entry resolves, and each
entry's host range ends at or before the next key (adjacent disjoint
ranges in key order — what a valid `code_reverse` tree satisfies, since
the backend hands out disjoint ranges from its code buffer). -/
def rmapChainOk (s : JitState) : List (Nat × Nat) → Bool
  | [] => true
  | [e] => entryResolves s e
  | e1 :: e2 :: rest =>
    entryResolves s e1 && decide (entryEnd s e1 ≤ e2.1) && rmapChainOk s (e2 :: rest)

def revOk (s : JitState) : Bool := rmapChainOk s s.code_rmap

theorem key_le_end (s : JitState) (e : Nat × Nat)
    (h : entryResolves s e = true) : e.1 ≤ entryEnd s e := by
  unfold entryResolves at h
  unfold entryEnd
  cases hf : codeFind s e.2 with
  | none => simp [hf] at h
  | some c =>
    simp only [hf] at h ⊢
    have hc : c.host_addr = e.1 := by simpa using h
    omega

theorem chain_tail (s : JitState) (e : Nat × Nat) (rest : List (Nat × Nat))
    (h : rmapChainOk s (e :: rest) = true) : rmapChainOk s rest = true := by
  cases rest with
  | nil => rfl
  | cons b t =>
    unfold rmapChainOk at h
    exact (Bool.and_eq_true _ _ |>.mp h).2

theorem chain_head_resolves (s : JitState) (e : Nat × Nat) (rest : List (Nat × Nat))
    (h : rmapChainOk s (e :: rest) = true) : entryResolves s e = true := by
  cases rest with
  | nil => exact h
  | cons b t =>
    unfold rmapChainOk at h
    exact ((Bool.and_eq_true _ _ |>.mp (Bool.and_eq_true _ _ |>.mp h).1).1)

theorem chain_resolves (s : JitState) (l : List (Nat × Nat))
    (h : rmapChainOk s l = true) : ∀ e ∈ l, entryResolves s e = true := by
  induction l with
  | nil => intro e he; exact absurd he (by simp)
  | cons a t ih =>
    intro e he
    rcases List.mem_cons.mp he with rfl | he'
    · exact chain_head_resolves s e t h
    · exact ih (chain_tail s a t h) e he'

theorem chain_lb (s : JitState) (e : Nat × Nat) (rest : List (Nat × Nat))
    (h : rmapChainOk s (e :: rest) = true) :
    ∀ e2 ∈ rest, entryEnd s e ≤ e2.1 := by
  induction rest generalizing e with
  | nil => intro e2 he2; exact absurd he2 (by simp)
  | cons b t ih =>
    intro e2 he2
    unfold rmapChainOk at h
    obtain ⟨h1, h2⟩ := Bool.and_eq_true _ _ |>.mp h
    obtain ⟨hres, hle⟩ := Bool.and_eq_true _ _ |>.mp h1
    have hadj : entryEnd s e ≤ b.1 := of_decide_eq_true hle
    rcases List.mem_cons.mp he2 with rfl | he2'
    · exact hadj
    · have hb := ih b h2 e2 he2'
      have hkb : b.1 ≤ entryEnd s b := key_le_end s b (chain_head_resolves s b t h2)
      omega

theorem rmapPred_mem (l : List (Nat × Nat)) (p : Nat) (e : Nat × Nat)
    (h : rmapPred l p = some e) : e ∈ l ∧ e.1 ≤ p := by
  induction l with
  | nil => exact absurd h (by simp [rmapPred])
  | cons a t ih =>
    unfold rmapPred at h
    split at h
    case isTrue hle =>
      cases hr : rmapPred t p with
      | none => rw [hr] at h; obtain rfl := Option.some.inj h; exact ⟨by simp, hle⟩
      | some e2 =>
        rw [hr] at h
        obtain rfl := Option.some.inj h
        obtain ⟨hm, hl⟩ := ih hr
        exact ⟨List.mem_cons_of_mem a hm, hl⟩
    case isFalse => exact absurd h (by simp)

theorem rmapPred_none_of_far (l : List (Nat × Nat)) (p : Nat)
    (h : ∀ e ∈ l, p < e.1) : rmapPred l p = none := by
  cases l with
  | nil => rfl
  | cons a t =>
    unfold rmapPred
    have := h a (by simp)
    rw [if_neg (by omega)]

theorem rmapPred_lookup (s : JitState) (l : List (Nat × Nat)) (c : JitCode)
    (k i p : Nat) (hch : rmapChainOk s l = true) (hmem : (k, i) ∈ l)
    (hres : codeFind s i = some c) (hk : c.host_addr = k)
    (hp1 : k ≤ p) (hp2 : p < c.host_addr + c.host_size) :
    rmapPred l p = some (k, i) := by
  induction l with
  | nil => exact absurd hmem (by simp)
  | cons a t ih =>
    rcases List.mem_cons.mp hmem with rfl | hmem'
    · unfold rmapPred
      rw [if_pos (by simpa using hp1)]
      have hnone : rmapPred t p = none := by
        apply rmapPred_none_of_far
        intro e2 he2
        have := chain_lb s (k, i) t hch e2 he2
        have hend : entryEnd s (k, i) = c.host_addr + c.host_size := by
          unfold entryEnd
          rw [hres]
        omega
      rw [hnone]
    · unfold rmapPred
      have ha1 : a.1 ≤ p := by
        have hlb := chain_lb s a t hch (k, i) hmem'
        have hka : a.1 ≤ entryEnd s a := key_le_end s a (chain_head_resolves s a t hch)
        simp only at hlb
        omega
      rw [if_pos ha1, ih (chain_tail s a t hch) hmem']

theorem lookup_reverse_hit (s : JitState) (c : JitCode) (p : Nat)
    (hch : revOk s = true) (hmem : (c.host_addr, c.id) ∈ s.code_rmap)
    (hres : codeFind s c.id = some c)
    (hp1 : c.host_addr ≤ p) (hp2 : p < c.host_addr + c.host_size) :
    jit_lookup_code_reverse s p = some c := by
  unfold jit_lookup_code_reverse
  rw [rmapPred_lookup s s.code_rmap c c.host_addr c.id p hch hmem hres rfl hp1 hp2]
  simp only [hres]
  rw [if_neg (by omega)]

theorem lookup_reverse_miss (s : JitState) (p : Nat)
    (hout : ∀ e ∈ s.code_rmap, ∀ c, codeFind s e.2 = some c →
      p < c.host_addr ∨ c.host_addr + c.host_size ≤ p) :
    jit_lookup_code_reverse s p = none := by
  unfold jit_lookup_code_reverse
  cases hpred : rmapPred s.code_rmap p with
  | none => rfl
  | some e =>
    cases hf : codeFind s e.2 with
    | none => simp [hf]
    | some c =>
      obtain ⟨hm, _⟩ := rmapPred_mem _ _ _ hpred
      simp only [hf]
      rw [if_pos (hout e hm c hf)]

theorem mem_sortedInsert (l : List (Nat × Nat)) (e x : Nat × Nat) :
    x ∈ sortedInsert l e ↔ x ∈ l ∨ x = e := by
  induction l with
  | nil => simp [sortedInsert]
  | cons a t ih =>
    unfold sortedInsert
    split
    · simp only [List.mem_cons, ih]
      tauto
    · simp only [List.mem_cons]
      tauto

theorem guestCacheCode_map (s : JitState) (a h : Nat) :
    (guestCacheCode s a h).code_map = s.code_map := rfl
theorem guestCacheCode_rmap (s : JitState) (a h : Nat) :
    (guestCacheCode s a h).code_rmap = s.code_rmap := rfl

theorem invalidate_body_map (s : JitState) (cid : Nat) (c : JitCode) :
    (jit_invalidate_body s cid c).code_map = s.code_map := by
  unfold jit_invalidate_body
  dsimp only
  rw [restore_edges_map, guestInvalidate_map, updateCode_map]
  exact (free_unit_frame s c.root_unit).2.2.1

theorem invalidate_body_rmap (s : JitState) (cid : Nat) (c : JitCode) :
    (jit_invalidate_body s cid c).code_rmap = s.code_rmap := by
  unfold jit_invalidate_body
  dsimp only
  rw [restore_edges_rmap, guestInvalidate_rmap, updateCode_rmap]
  exact (free_unit_frame s c.root_unit).2.2.2.1

theorem invalidate_maps (s : JitState) (cid : Nat) :
    (jit_invalidate_code s cid).code_map = s.code_map ∧
    (jit_invalidate_code s cid).code_rmap = s.code_rmap := by
  unfold jit_invalidate_code
  cases codeFind s cid with
  | none => exact ⟨rfl, rfl⟩
  | some c => exact ⟨invalidate_body_map s cid c, invalidate_body_rmap s cid c⟩

theorem free_code_map (s : JitState) (cid : Nat) :
    (jit_free_code s cid).code_map = s.code_map.filter (fun kv => !(kv.2 == cid)) := by
  unfold jit_free_code
  dsimp only
  rw [(invalidate_maps s cid).1]

theorem free_code_rmap (s : JitState) (cid : Nat) :
    (jit_free_code s cid).code_rmap = s.code_rmap.filter (fun kv => !(kv.2 == cid)) := by
  unfold jit_free_code
  dsimp only
  rw [(invalidate_maps s cid).2]

/-- C2: `finalize_code` inserts a code into both maps and preserves the
"in forward map iff in reverse map" invariant; `free_code` removes it
from both and preserves the invariant; `invalidate_code` touches
neither map; and on a well-formed reverse map the upper-bound reverse
lookup returns exactly the code whose `[host_addr, host_addr+host_size)`
range contains the probed host address, and null when no range does. -/
theorem jit_C2_map_consistency :
    (∀ s cid s', jit_finalize_code s cid = some s' →
       (InFwd s' cid ∧ InRev s' cid) ∧
       ((∀ i, InFwd s i ↔ InRev s i) → ∀ i, InFwd s' i ↔ InRev s' i)) ∧
    (∀ s cid, ¬ InFwd (jit_free_code s cid) cid ∧ ¬ InRev (jit_free_code s cid) cid ∧
       ((∀ i, InFwd s i ↔ InRev s i) → ∀ i,
         InFwd (jit_free_code s cid) i ↔ InRev (jit_free_code s cid) i)) ∧
    (∀ s cid, (jit_invalidate_code s cid).code_map = s.code_map ∧
       (jit_invalidate_code s cid).code_rmap = s.code_rmap) ∧
    (∀ s c p, revOk s = true → (c.host_addr, c.id) ∈ s.code_rmap →
       codeFind s c.id = some c → c.host_addr ≤ p → p < c.host_addr + c.host_size →
       jit_lookup_code_reverse s p = some c) ∧
    (∀ s p, (∀ e ∈ s.code_rmap, ∀ c, codeFind s e.2 = some c →
       p < c.host_addr ∨ c.host_addr + c.host_size ≤ p) →
       jit_lookup_code_reverse s p = none) := by
  refine ⟨?_, ?_, invalidate_maps, lookup_reverse_hit, lookup_reverse_miss⟩
  · intro s cid s' h
    unfold jit_finalize_code at h
    split at h
    · exact absurd h (by simp)
    case h_2 c hc =>
      split at h
      · exact absurd h (by simp)
      split at h
      · exact absurd h (by simp)
      obtain rfl := Option.some.inj h
      constructor
      · constructor
        · exact ⟨c.guest_addr, (mem_sortedInsert _ _ _).mpr (Or.inr rfl)⟩
        · exact ⟨c.host_addr, (mem_sortedInsert _ _ _).mpr (Or.inr rfl)⟩
      · intro hiff i
        constructor
        · rintro ⟨k, hk⟩
          rcases (mem_sortedInsert _ _ _).mp hk with hk' | hk'
          · obtain ⟨k2, hk2⟩ := (hiff i).mp ⟨k, hk'⟩
            exact ⟨k2, (mem_sortedInsert _ _ _).mpr (Or.inl hk2)⟩
          · obtain rfl : i = cid := (Prod.mk.injEq _ _ _ _ |>.mp hk').2
            exact ⟨c.host_addr, (mem_sortedInsert _ _ _).mpr (Or.inr rfl)⟩
        · rintro ⟨k, hk⟩
          rcases (mem_sortedInsert _ _ _).mp hk with hk' | hk'
          · obtain ⟨k2, hk2⟩ := (hiff i).mpr ⟨k, hk'⟩
            exact ⟨k2, (mem_sortedInsert _ _ _).mpr (Or.inl hk2)⟩
          · obtain rfl : i = cid := (Prod.mk.injEq _ _ _ _ |>.mp hk').2
            exact ⟨c.guest_addr, (mem_sortedInsert _ _ _).mpr (Or.inr rfl)⟩
  · intro s cid
    refine ⟨?_, ?_, ?_⟩
    · rintro ⟨k, hk⟩
      rw [free_code_map] at hk
      have := (List.mem_filter.mp hk).2
      simp at this
    · rintro ⟨k, hk⟩
      rw [free_code_rmap] at hk
      have := (List.mem_filter.mp hk).2
      simp at this
    · intro hiff i
      constructor
      · rintro ⟨k, hk⟩
        rw [free_code_map] at hk
        obtain ⟨hm, hne⟩ := List.mem_filter.mp hk
        obtain ⟨k2, hk2⟩ := (hiff i).mp ⟨k, hm⟩
        refine ⟨k2, ?_⟩
        rw [free_code_rmap]
        exact List.mem_filter.mpr ⟨hk2, hne⟩
      · rintro ⟨k, hk⟩
        rw [free_code_rmap] at hk
        obtain ⟨hm, hne⟩ := List.mem_filter.mp hk
        obtain ⟨k2, hk2⟩ := (hiff i).mpr ⟨k, hm⟩
        refine ⟨k2, ?_⟩
        rw [free_code_map]
        exact List.mem_filter.mpr ⟨hk2, hne⟩

def codeA : JitCode :=
  { id := 0, guest_addr := 256, fastmem := true, root_unit := .leaf,
    host_addr := 4096, host_size := 16 }

def codeB : JitCode :=
  { id := 1, guest_addr := 512, fastmem := true, root_unit := .leaf,
    host_addr := 4112, host_size := 8 }

/-- Two finalized codes with adjacent host ranges. -/
def stateTwo : JitState :=
  { metas := [], codes := [codeA, codeB],
    code_map := [(256, 0), (512, 1)], code_rmap := [(4096, 0), (4112, 1)],
    edges := [], dispatch := [(256, 4096), (512, 4112)],
    visit_token := 1, next_id := 2, events := [] }

theorem jit_C2_witness :
    jit_lookup_code_reverse stateTwo 4100 = some codeA ∧
    jit_lookup_code_reverse stateTwo 4121 = none ∧
    (jit_invalidate_code stateTwo 0).code_map = stateTwo.code_map :=
  ⟨jit_C2_map_consistency.2.2.2.1 stateTwo codeA 4100 (by decide) (by decide)
     (by decide) (by decide) (by decide),
   jit_C2_map_consistency.2.2.2.2 stateTwo 4121 (by
     intro e he c hc
     fin_cases he
     · have hca : codeA = c :=
         Option.some.inj ((by decide : codeFind stateTwo 0 = some codeA).symm.trans hc)
       rw [← hca]
       decide
     · have hcb : codeB = c :=
         Option.some.inj ((by decide : codeFind stateTwo 1 = some codeB).symm.trans hc)
       rw [← hcb]
       decide),
   (jit_C2_map_consistency.2.2.1 stateTwo 0).1⟩

/-! ## The analysis walk: invariants shared by its claims -/

/-- `a`'s meta is stamped with the current visit token. -/
def stampedIn (s : JitState) (a : Nat) : Prop :=
  ∃ m, jit_lookup_meta s a = some m ∧ m.visited = s.visit_token

/-- The analysis results cached in a meta (everything except `refs` and
`visited`) agree. -/
def sameCached (m' m : BlockMeta) : Prop :=
  m'.guest_addr = m.guest_addr ∧ m'.branch_type = m.branch_type ∧
  m'.branch_addr = m.branch_addr ∧ m'.next_addr = m.next_addr ∧
  m'.num_instrs = m.num_instrs ∧ m'.num_cycles = m.num_cycles ∧ m'.size = m.size

theorem sameCached_refl (m : BlockMeta) : sameCached m m :=
  ⟨rfl, rfl, rfl, rfl, rfl, rfl, rfl⟩

theorem sameCached_trans {a b c : BlockMeta} (h1 : sameCached a b)
    (h2 : sameCached b c) : sameCached a c := by
  obtain ⟨x1, x2, x3, x4, x5, x6, x7⟩ := h1
  obtain ⟨y1, y2, y3, y4, y5, y6, y7⟩ := h2
  exact ⟨x1.trans y1, x2.trans y2, x3.trans y3, x4.trans y4,
    x5.trans y5, x6.trans y6, x7.trans y7⟩

/-- What one `jit_analyze_code_r` call guarantees, relating its input
and output states and the subtree it returns. -/
structure WalkInv (s s' : JitState) (u : CompileUnit) : Prop where
  codes_eq : s'.codes = s.codes
  next_id_eq : s'.next_id = s.next_id
  token_eq : s'.visit_token = s.visit_token
  map_eq : s'.code_map = s.code_map
  rmap_eq : s'.code_rmap = s.code_rmap
  edges_eq : s'.edges = s.edges
  dispatch_eq : s'.dispatch = s.dispatch
  events_ext : ∃ l, s'.events = l ++ s.events ∧
    ∀ a, Event.frontend_analyze a ∈ l → jit_lookup_meta s a = none
  meta_pres : ∀ a m, jit_lookup_meta s a = some m →
    ∃ m', jit_lookup_meta s' a = some m' ∧ sameCached m' m ∧
      (m'.visited = m.visited ∨ m'.visited = s.visit_token)
  stamped_mono : ∀ a, stampedIn s a → stampedIn s' a
  tree_stamped : ∀ a, a ∈ unitAddrs u → stampedIn s' a
  tree_fresh : ∀ a, a ∈ unitAddrs u → ¬ stampedIn s a
  tree_nodup : (unitAddrs u).Nodup

theorem WalkInv.leaf_self (s : JitState) : WalkInv s s .leaf where
  codes_eq := rfl
  next_id_eq := rfl
  token_eq := rfl
  map_eq := rfl
  rmap_eq := rfl
  edges_eq := rfl
  dispatch_eq := rfl
  events_ext := ⟨[], (List.nil_append _).symm, by intro a ha; exact absurd ha (by simp)⟩
  meta_pres := fun a m h => ⟨m, h, sameCached_refl m, Or.inl rfl⟩
  stamped_mono := fun a h => h
  tree_stamped := by intro a ha; exact absurd ha (by simp [unitAddrs])
  tree_fresh := by intro a ha; exact absurd ha (by simp [unitAddrs])
  tree_nodup := by simp [unitAddrs]

theorem find?_map_key {α : Type} (l : List α) (key : α → Nat) (f : α → α)
    (hf : ∀ x, key (f x) = key x) (j : Nat) :
    (l.map f).find? (fun x => key x == j) = (l.find? (fun x => key x == j)).map f := by
  induction l with
  | nil => rfl
  | cons x t ih =>
    cases hb : (key x == j) with
    | true =>
      have h1 : ((x :: t).find? fun y => key y == j) = some x :=
        List.find?_cons_of_pos _ (by simp [hb])
      have h2 : (((x :: t).map f).find? (fun y => key y == j)) = some (f x) := by
        rw [List.map_cons]
        exact List.find?_cons_of_pos _ (by rw [hf]; simp [hb])
      rw [h1, h2]
      rfl
    | false =>
      have h1 : ((x :: t).find? fun y => key y == j) = t.find? fun y => key y == j :=
        List.find?_cons_of_neg _ (by simp [hb])
      have h2 : (((x :: t).map f).find? (fun y => key y == j)) =
          ((t.map f).find? (fun y => key y == j)) := by
        rw [List.map_cons]
        exact List.find?_cons_of_neg _ (by rw [hf]; simp [hb])
      rw [h1, h2, ih]

theorem lookup_meta_congr {s t : JitState} (h : s.metas = t.metas) (b : Nat) :
    jit_lookup_meta s b = jit_lookup_meta t b := by
  simp [jit_lookup_meta, h]

theorem lookup_setMeta (s : JitState) (a : Nat) (M : BlockMeta) (b : Nat)
    (hM : M.guest_addr = a) :
    jit_lookup_meta (setMeta s a M) b =
      (jit_lookup_meta s b).map (fun x => if x.guest_addr == a then M else x) := by
  unfold jit_lookup_meta setMeta
  exact find?_map_key s.metas (fun m => m.guest_addr)
    (fun x => if x.guest_addr == a then M else x)
    (by
      intro x
      by_cases hx : (x.guest_addr == a) = true
      · simp only [hx, if_true, hM]
        exact ((by simpa using hx : x.guest_addr = a)).symm
      · simp only [Bool.not_eq_true] at hx
        simp [hx]) b

theorem lookup_incRefs (s : JitState) (a b : Nat) :
    jit_lookup_meta (incRefs s a) b =
      (jit_lookup_meta s b).map
        (fun x => if x.guest_addr == a then { x with refs := x.refs + 1 } else x) := by
  unfold jit_lookup_meta incRefs
  exact find?_map_key s.metas (fun m => m.guest_addr)
    (fun x => if x.guest_addr == a then { x with refs := x.refs + 1 } else x)
    (by
      intro x
      by_cases hx : (x.guest_addr == a) = true
      · simp [hx]
      · simp only [Bool.not_eq_true] at hx
        simp [hx]) b

theorem lookup_meta_key (s : JitState) (b : Nat) (m : BlockMeta)
    (h : jit_lookup_meta s b = some m) : m.guest_addr = b := by
  unfold jit_lookup_meta at h
  have h2 := List.find?_some h
  simpa using h2


theorem lookup_allocMeta_self (s : JitState) (addr : Nat) :
    jit_lookup_meta (allocMeta s addr) addr = some (freshMeta addr) := by
  unfold jit_lookup_meta allocMeta
  exact List.find?_cons_of_pos _ (by simp [freshMeta])

theorem lookup_allocMeta_other (s : JitState) (addr b : Nat) (hb : ¬ b = addr) :
    jit_lookup_meta (allocMeta s addr) b = jit_lookup_meta s b := by
  unfold jit_lookup_meta allocMeta
  dsimp only
  rw [List.find?_cons_of_neg _ (by simp [freshMeta]; exact fun hcontra => hb hcontra.symm)]

theorem free_alloc_spec (s : JitState) (addr : Nat)
    (hm : jit_lookup_meta s addr = none) (t : JitState)
    (h : jit_free_meta (allocMeta s addr) addr = some t) :
    t = { s with events := Event.frontend_analyze addr :: s.events } := by
  unfold jit_free_meta at h
  simp only [lookup_allocMeta_self] at h
  rw [if_neg (by simp [freshMeta])] at h
  have hfil : (allocMeta s addr).metas.filter (fun x => !(x.guest_addr == addr)) =
      s.metas := by
    show ((freshMeta addr :: s.metas).filter (fun x => !(x.guest_addr == addr))) = s.metas
    rw [List.filter_cons]
    have hhead : (!((freshMeta addr).guest_addr == addr)) = false := by simp [freshMeta]
    rw [hhead]
    simp only [Bool.false_eq_true, if_false]
    apply filter_eq_self_of
    intro x hx
    have hall := List.find?_eq_none.mp hm x hx
    simpa using hall
  rw [hfil] at h
  obtain rfl := Option.some.inj h
  rfl

theorem meta_for_addr_none_spec (env : JitEnv) (s : JitState) (addr : Nat)
    (s1 : JitState) (h : jit_meta_for_addr env s addr = some (s1, none)) :
    s1.codes = s.codes ∧ s1.next_id = s.next_id ∧ s1.visit_token = s.visit_token ∧
    s1.code_map = s.code_map ∧ s1.code_rmap = s.code_rmap ∧ s1.edges = s.edges ∧
    s1.dispatch = s.dispatch ∧ s1.metas = s.metas ∧
    (∃ l, s1.events = l ++ s.events ∧
      ∀ a, Event.frontend_analyze a ∈ l → jit_lookup_meta s a = none) := by
  unfold jit_meta_for_addr at h
  split at h
  case h_1 m hm =>
    split at h
    case isTrue =>
      obtain rfl : s = s1 := congrArg Prod.fst (Option.some.inj h)
      exact ⟨rfl, rfl, rfl, rfl, rfl, rfl, rfl, rfl, [], (List.nil_append _).symm,
        fun a ha => absurd ha (by simp)⟩
    case isFalse =>
      exact absurd (congrArg Prod.snd (Option.some.inj h)) (by simp)
  case h_2 hm =>
    split at h
    case h_1 hana =>
      split at h
      case h_1 => exact absurd h (by simp)
      case h_2 s2 hfree =>
        obtain rfl : s2 = s1 := congrArg Prod.fst (Option.some.inj h)
        obtain rfl := free_alloc_spec s addr hm s2 hfree
        refine ⟨rfl, rfl, rfl, rfl, rfl, rfl, rfl, rfl,
          [Event.frontend_analyze addr], rfl, ?_⟩
        intro a ha
        obtain rfl : a = addr := by simpa using ha
        exact hm
    case h_2 r hana =>
      exact absurd (congrArg Prod.snd (Option.some.inj h)) (by simp)

theorem metaApply_guest (m0 : BlockMeta) (r : AnalyzeRes) :
    (metaApply m0 r).guest_addr = m0.guest_addr := rfl

theorem meta_for_addr_some_spec (env : JitEnv) (s : JitState) (addr : Nat)
    (s1 : JitState) (m : BlockMeta)
    (h : jit_meta_for_addr env s addr = some (s1, some m)) :
    m.guest_addr = addr ∧ ¬ stampedIn s addr ∧
    s1.codes = s.codes ∧ s1.next_id = s.next_id ∧ s1.visit_token = s.visit_token ∧
    s1.code_map = s.code_map ∧ s1.code_rmap = s.code_rmap ∧ s1.edges = s.edges ∧
    s1.dispatch = s.dispatch ∧
    (∃ l, s1.events = l ++ s.events ∧
      ∀ a, Event.frontend_analyze a ∈ l → jit_lookup_meta s a = none) ∧
    jit_lookup_meta s1 addr = some m ∧
    (∀ b mb, jit_lookup_meta s b = some mb → jit_lookup_meta s1 b = some mb) := by
  unfold jit_meta_for_addr at h
  split at h
  case h_1 m0 hm =>
    split at h
    case isTrue => exact absurd (congrArg Prod.snd (Option.some.inj h)) (by simp)
    case isFalse hvis =>
      obtain hp := Option.some.inj h
      obtain rfl : s = s1 := congrArg Prod.fst hp
      obtain rfl : m0 = m := Option.some.inj (congrArg Prod.snd hp)
      refine ⟨lookup_meta_key s addr m0 hm, ?_, rfl, rfl, rfl, rfl, rfl, rfl, rfl,
        ⟨[], (List.nil_append _).symm, fun a ha => absurd ha (by simp)⟩, hm,
        fun b mb hb => hb⟩
      rintro ⟨m2, hl2, hv2⟩
      obtain rfl : m0 = m2 := Option.some.inj (hm.symm.trans hl2)
      exact hvis (by simpa using hv2)
  case h_2 hm =>
    split at h
    case h_1 hana => exact absurd h (by split <;> simp)
    case h_2 r hana =>
      obtain hp := Option.some.inj h
      obtain hs1 : setMeta (allocMeta s addr) addr (metaApply (freshMeta addr) r) = s1 :=
        congrArg Prod.fst hp
      obtain rfl : metaApply (freshMeta addr) r = m :=
        Option.some.inj (congrArg Prod.snd hp)
      subst hs1
      have hguest : (metaApply (freshMeta addr) r).guest_addr = addr := rfl
      refine ⟨rfl, ?_, rfl, rfl, rfl, rfl, rfl, rfl, rfl,
        ⟨[Event.frontend_analyze addr], rfl, ?_⟩, ?_, ?_⟩
      · rintro ⟨m2, hl2, -⟩
        rw [hm] at hl2
        exact absurd hl2 (by simp)
      · intro a ha
        obtain rfl : a = addr := by simpa using ha
        exact hm
      · rw [lookup_setMeta _ _ _ _ hguest, lookup_allocMeta_self]
        simp [freshMeta]
      · intro b mb hb
        have hbne : ¬ b = addr := by
          intro hcontra
          rw [hcontra, hm] at hb
          exact absurd hb (by simp)
        rw [lookup_setMeta _ _ _ _ hguest, lookup_allocMeta_other s addr b hbne, hb]
        have hkey : mb.guest_addr = b := lookup_meta_key s b mb hb
        simp [hkey, hbne]

theorem stamped_mono_of_pres {s s' : JitState} (htok : s'.visit_token = s.visit_token)
    (hpres : ∀ a m, jit_lookup_meta s a = some m →
      ∃ m', jit_lookup_meta s' a = some m' ∧ sameCached m' m ∧
        (m'.visited = m.visited ∨ m'.visited = s.visit_token)) :
    ∀ a, stampedIn s a → stampedIn s' a := by
  rintro a ⟨m, hl, hv⟩
  obtain ⟨m', hl', -, hvv⟩ := hpres a m hl
  refine ⟨m', hl', ?_⟩
  rw [htok]
  rcases hvv with hsame | htokv
  · rw [hsame, hv]
  · exact htokv

theorem stamp_spec (s1 : JitState) (addr : Nat) (m : BlockMeta)
    (hm : jit_lookup_meta s1 addr = some m) (hg : m.guest_addr = addr) :
    (incRefs (setMeta s1 addr { m with visited := s1.visit_token }) addr).codes = s1.codes ∧
    (incRefs (setMeta s1 addr { m with visited := s1.visit_token }) addr).next_id = s1.next_id ∧
    (incRefs (setMeta s1 addr { m with visited := s1.visit_token }) addr).visit_token = s1.visit_token ∧
    (incRefs (setMeta s1 addr { m with visited := s1.visit_token }) addr).code_map = s1.code_map ∧
    (incRefs (setMeta s1 addr { m with visited := s1.visit_token }) addr).code_rmap = s1.code_rmap ∧
    (incRefs (setMeta s1 addr { m with visited := s1.visit_token }) addr).edges = s1.edges ∧
    (incRefs (setMeta s1 addr { m with visited := s1.visit_token }) addr).dispatch = s1.dispatch ∧
    (incRefs (setMeta s1 addr { m with visited := s1.visit_token }) addr).events = s1.events ∧
    jit_lookup_meta (incRefs (setMeta s1 addr { m with visited := s1.visit_token }) addr) addr =
      some { m with visited := s1.visit_token, refs := m.refs + 1 } ∧
    (∀ b mb, jit_lookup_meta s1 b = some mb →
      ∃ m', jit_lookup_meta (incRefs (setMeta s1 addr { m with visited := s1.visit_token }) addr) b = some m' ∧
        sameCached m' mb ∧ (m'.visited = mb.visited ∨ m'.visited = s1.visit_token)) := by
  have hgM : ({ m with visited := s1.visit_token } : BlockMeta).guest_addr = addr := hg
  refine ⟨rfl, rfl, rfl, rfl, rfl, rfl, rfl, rfl, ?_, ?_⟩
  · rw [lookup_incRefs, lookup_setMeta _ _ _ _ hgM, hm]
    simp [hg]
  · intro b mb hb
    by_cases hba : b = addr
    · subst hba
      obtain rfl : m = mb := Option.some.inj (hm.symm.trans hb)
      refine ⟨{ m with visited := s1.visit_token, refs := m.refs + 1 }, ?_, ?_, Or.inr rfl⟩
      · rw [lookup_incRefs, lookup_setMeta _ _ _ _ hgM, hm]
        simp [hg]
      · exact ⟨rfl, rfl, rfl, rfl, rfl, rfl, rfl⟩
    · have hkey : mb.guest_addr = b := lookup_meta_key s1 b mb hb
      refine ⟨mb, ?_, sameCached_refl mb, Or.inl rfl⟩
      rw [lookup_incRefs, lookup_setMeta _ _ _ _ hgM, hb]
      simp [hkey, hba]

theorem pres_trans {s t u : JitState} (htok : t.visit_token = s.visit_token)
    (p1 : ∀ b mb, jit_lookup_meta s b = some mb →
      ∃ m', jit_lookup_meta t b = some m' ∧ sameCached m' mb ∧
        (m'.visited = mb.visited ∨ m'.visited = s.visit_token))
    (p2 : ∀ b mb, jit_lookup_meta t b = some mb →
      ∃ m', jit_lookup_meta u b = some m' ∧ sameCached m' mb ∧
        (m'.visited = mb.visited ∨ m'.visited = t.visit_token)) :
    ∀ b mb, jit_lookup_meta s b = some mb →
      ∃ m', jit_lookup_meta u b = some m' ∧ sameCached m' mb ∧
        (m'.visited = mb.visited ∨ m'.visited = s.visit_token) := by
  intro b mb h
  obtain ⟨m1, h1, c1, v1⟩ := p1 b mb h
  obtain ⟨m2, h2, c2, v2⟩ := p2 b m1 h1
  refine ⟨m2, h2, sameCached_trans c2 c1, ?_⟩
  rcases v2 with v2 | v2
  · rcases v1 with v1 | v1
    · exact Or.inl (v2.trans v1)
    · exact Or.inr (v2.trans v1)
  · right
    rw [v2, htok]

theorem analyze_r_spec : ∀ (fuel : Nat) (env : JitEnv) (s : JitState)
    (cid addr : Nat) (s' : JitState) (u : CompileUnit),
    jit_analyze_code_r env s cid addr fuel = some (s', u) → WalkInv s s' u := by
  intro fuel
  induction fuel with
  | zero =>
    intro env s cid addr s' u h
    exact absurd h (by simp [jit_analyze_code_r])
  | succ fuel ih =>
    intro env s cid addr s' u h
    simp only [jit_analyze_code_r] at h
    split at h
    case isTrue =>
      obtain hp := Option.some.inj h
      obtain rfl : s = s' := congrArg Prod.fst hp
      obtain rfl : CompileUnit.leaf = u := congrArg Prod.snd hp
      exact WalkInv.leaf_self s
    case isFalse haddr =>
      split at h
      case h_1 => exact absurd h (by simp)
      case h_2 s1 hmfa =>
        obtain hp := Option.some.inj h
        obtain rfl : s1 = s' := congrArg Prod.fst hp
        obtain rfl : CompileUnit.leaf = u := congrArg Prod.snd hp
        obtain ⟨e1, e2, e3, e4, e5, e6, e7, e8, l, hev, hub⟩ :=
          meta_for_addr_none_spec env s addr s1 hmfa
        exact {
          codes_eq := e1, next_id_eq := e2, token_eq := e3, map_eq := e4,
          rmap_eq := e5, edges_eq := e6, dispatch_eq := e7,
          events_ext := ⟨l, hev, hub⟩,
          meta_pres := by
            intro a m hma
            refine ⟨m, ?_, sameCached_refl m, Or.inl rfl⟩
            rw [lookup_meta_congr e8 a]
            exact hma,
          stamped_mono := by
            rintro a ⟨m, hl, hv⟩
            exact ⟨m, by rw [lookup_meta_congr e8 a]; exact hl, by rw [e3]; exact hv⟩,
          tree_stamped := fun a ha => absurd ha (by simp [unitAddrs]),
          tree_fresh := fun a ha => absurd ha (by simp [unitAddrs]),
          tree_nodup := by simp [unitAddrs] }
      case h_3 s1 m hmfa =>
        obtain ⟨hg, hnst, f1, f2, f3, f4, f5, f6, f7, ⟨l1, hev1, hl1⟩, hlook1, hpres1⟩ :=
          meta_for_addr_some_spec env s addr s1 m hmfa
        obtain ⟨g1, g2, g3, g4, g5, g6, g7, g8, hstampLook, hpres13⟩ :=
          stamp_spec s1 addr m hlook1 hg
        set s3 := incRefs (setMeta s1 addr { m with visited := s1.visit_token }) addr with hs3
        split at h
        case h_1 => exact absurd h (by simp)
        case h_2 s4 ub hb =>
          split at h
          case h_1 => exact absurd h (by simp)
          case h_2 s5 un hn =>
            obtain hp := Option.some.inj h
            obtain rfl : s5 = s' := congrArg Prod.fst hp
            obtain rfl : CompileUnit.node cid addr ub un = u := congrArg Prod.snd hp
            have wb := ih env s3 cid m.branch_addr s4 ub hb
            have wn := ih env s4 cid m.next_addr s5 un hn
            have T3 : s3.visit_token = s.visit_token := by rw [g3, f3]
            have T4 : s4.visit_token = s.visit_token := by rw [wb.token_eq, T3]
            have T5 : s5.visit_token = s.visit_token := by rw [wn.token_eq, T4]
            have P13 : ∀ b mb, jit_lookup_meta s b = some mb →
                ∃ m', jit_lookup_meta s3 b = some m' ∧ sameCached m' mb ∧
                  (m'.visited = mb.visited ∨ m'.visited = s.visit_token) := by
              intro b mb hbm
              obtain ⟨m', h3, hc, hv⟩ := hpres13 b mb (hpres1 b mb hbm)
              refine ⟨m', h3, hc, ?_⟩
              rcases hv with hv | hv
              · exact Or.inl hv
              · right; rw [hv, f3]
            have P14 : ∀ b mb, jit_lookup_meta s b = some mb →
                ∃ m', jit_lookup_meta s4 b = some m' ∧ sameCached m' mb ∧
                  (m'.visited = mb.visited ∨ m'.visited = s.visit_token) :=
              pres_trans T3 P13 wb.meta_pres
            have P15 : ∀ b mb, jit_lookup_meta s b = some mb →
                ∃ m', jit_lookup_meta s5 b = some m' ∧ sameCached m' mb ∧
                  (m'.visited = mb.visited ∨ m'.visited = s.visit_token) :=
              pres_trans T4 P14 wn.meta_pres
            have S13 : ∀ a, stampedIn s a → stampedIn s3 a :=
              stamped_mono_of_pres T3 P13
            have S14 : ∀ a, stampedIn s a → stampedIn s4 a :=
              fun a ha => wb.stamped_mono a (S13 a ha)
            have stampedAddr3 : stampedIn s3 addr := by
              refine ⟨{ m with visited := s1.visit_token, refs := m.refs + 1 },
                hstampLook, ?_⟩
              rw [g3]
            have stampedAddr4 : stampedIn s4 addr := wb.stamped_mono addr stampedAddr3
            have stampedAddr5 : stampedIn s5 addr := wn.stamped_mono addr stampedAddr4
            obtain ⟨lb, hevb, hlb⟩ := wb.events_ext
            obtain ⟨ln, hevn, hln⟩ := wn.events_ext
            have noneOf3 : ∀ a, jit_lookup_meta s3 a = none → jit_lookup_meta s a = none := by
              intro a h3
              cases hsa : jit_lookup_meta s a with
              | none => rfl
              | some m2 =>
                obtain ⟨m', h', -, -⟩ := P13 a m2 hsa
                rw [h3] at h'
                exact absurd h' (by simp)
            have noneOf4 : ∀ a, jit_lookup_meta s4 a = none → jit_lookup_meta s a = none := by
              intro a h4
              cases hsa : jit_lookup_meta s a with
              | none => rfl
              | some m2 =>
                obtain ⟨m', h', -, -⟩ := P14 a m2 hsa
                rw [h4] at h'
                exact absurd h' (by simp)
            exact {
              codes_eq := by rw [wn.codes_eq, wb.codes_eq, g1, f1],
              next_id_eq := by rw [wn.next_id_eq, wb.next_id_eq, g2, f2],
              token_eq := T5,
              map_eq := by rw [wn.map_eq, wb.map_eq, g4, f4],
              rmap_eq := by rw [wn.rmap_eq, wb.rmap_eq, g5, f5],
              edges_eq := by rw [wn.edges_eq, wb.edges_eq, g6, f6],
              dispatch_eq := by rw [wn.dispatch_eq, wb.dispatch_eq, g7, f7],
              events_ext := by
                refine ⟨ln ++ (lb ++ l1), ?_, ?_⟩
                · rw [hevn, hevb, g8, hev1, List.append_assoc, List.append_assoc]
                · intro a ha
                  rcases List.mem_append.mp ha with ha | ha
                  · exact noneOf4 a (hln a ha)
                  · rcases List.mem_append.mp ha with ha | ha
                    · exact noneOf3 a (hlb a ha)
                    · exact hl1 a ha,
              meta_pres := P15,
              stamped_mono := stamped_mono_of_pres T5 P15,
              tree_stamped := by
                intro a ha
                rcases List.mem_cons.mp ha with rfl | ha
                · exact stampedAddr5
                · rcases List.mem_append.mp ha with ha | ha
                  · exact wn.stamped_mono a (wb.tree_stamped a ha)
                  · exact wn.tree_stamped a ha,
              tree_fresh := by
                intro a ha hst
                rcases List.mem_cons.mp ha with rfl | ha
                · exact hnst hst
                · rcases List.mem_append.mp ha with ha | ha
                  · exact wb.tree_fresh a ha (S13 a hst)
                  · exact wn.tree_fresh a ha (S14 a hst),
              tree_nodup := by
                show ((addr :: (unitAddrs ub ++ unitAddrs un)).Nodup)
                rw [List.nodup_cons]
                constructor
                · intro hmem
                  rcases List.mem_append.mp hmem with hmem | hmem
                  · exact wb.tree_fresh addr hmem stampedAddr3
                  · exact wn.tree_fresh addr hmem stampedAddr4
                · refine List.Nodup.append wb.tree_nodup wn.tree_nodup ?_
                  intro a hab han
                  exact wn.tree_fresh a han (wb.tree_stamped a hab) }

/-! ## C4 : the compile-unit structure is a tree visiting each meta once -/

/-- Guest CFG for scenario S4: block A (4096) branches to B (8192), B
falls through back to A. -/
def envC4 : JitEnv :=
  { analyze := fun a =>
      if a = 4096 then
        some { branch_type := .static, branch_addr := 8192,
               next_addr := INVALID_ADDR, num_instrs := 1, num_cycles := 1, size := 2 }
      else if a = 8192 then
        some { branch_type := .fall_through, branch_addr := INVALID_ADDR,
               next_addr := 4096, num_instrs := 1, num_cycles := 1, size := 2 }
      else none,
    assemble := fun _ => some (65536, 32),
    handle_ex := fun _ => false,
    fastmem_default := true }

/-- C4: every compile-unit tree built by the analysis walk references
each meta at most once (the visit-token cutoff prunes re-joins), and for
the guest CFG "A branches to B, B falls through back to A",
`compile_code(A)` builds root A with single child B, and B has no
A-child. -/
theorem jit_C4_tree_per_meta_once :
    (∀ fuel env s cid addr s' u,
       jit_analyze_code_r env s cid addr fuel = some (s', u) →
       (unitAddrs u).Nodup) ∧
    (jit_compile_code envC4 jitInit 4096 8).map (fun t =>
       (jit_lookup_code t 4096).map (fun c => c.root_unit)) =
      some (some (.node 0 4096 (.node 0 8192 .leaf .leaf) .leaf)) := by
  constructor
  · intro fuel env s cid addr s' u h
    exact (analyze_r_spec fuel env s cid addr s' u h).tree_nodup
  · decide

def stateToken : JitState := { jitInit with visit_token := 1 }

theorem jit_C4_witness :
    (unitAddrs (CompileUnit.node 7 4096
      (CompileUnit.node 7 8192 CompileUnit.leaf CompileUnit.leaf)
      CompileUnit.leaf)).Nodup :=
  jit_C4_tree_per_meta_once.1 8 envC4 stateToken 7 4096
    { metas := [{ guest_addr := 8192, branch_type := .fall_through,
                  branch_addr := 4294967295, next_addr := 4096, num_instrs := 1,
                  num_cycles := 1, size := 2, refs := 1, visited := 1 },
                { guest_addr := 4096, branch_type := .static,
                  branch_addr := 8192, next_addr := 4294967295, num_instrs := 1,
                  num_cycles := 1, size := 2, refs := 1, visited := 1 }],
      codes := [], code_map := [], code_rmap := [], edges := [], dispatch := [],
      visit_token := 1, next_id := 0,
      events := [Event.frontend_analyze 8192, Event.frontend_analyze 4096] }
    (CompileUnit.node 7 4096
      (CompileUnit.node 7 8192 CompileUnit.leaf CompileUnit.leaf) CompileUnit.leaf)
    (by decide)

/-! ## C9 : cached metas are reused without re-analysis -/

/-- C9: during an analysis walk (`jit_analyze_code`), the frontend's
`analyze_code` is invoked only for guest addresses that had no meta when
the walk started, and every meta present at the start survives with all
its cached analysis fields (branch type/targets, instruction count,
cycle count, byte size) unchanged. -/
theorem jit_C9_meta_cache_reuse (env : JitEnv) (s : JitState)
    (cid addr fuel : Nat) (s' : JitState)
    (h : jit_analyze_code env s cid addr fuel = some s') :
    (∃ l, s'.events = l ++ s.events ∧
      ∀ a, Event.frontend_analyze a ∈ l → jit_lookup_meta s a = none) ∧
    (∀ a m, jit_lookup_meta s a = some m →
      ∃ m', jit_lookup_meta s' a = some m' ∧
        m'.branch_type = m.branch_type ∧ m'.branch_addr = m.branch_addr ∧
        m'.next_addr = m.next_addr ∧ m'.num_instrs = m.num_instrs ∧
        m'.num_cycles = m.num_cycles ∧ m'.size = m.size) := by
  simp only [jit_analyze_code] at h
  split at h
  · exact absurd h (by simp)
  case h_2 s2 u hw =>
    split at h
    · exact absurd h (by simp)
    case isFalse hne =>
      obtain rfl := Option.some.inj h
      have w := analyze_r_spec fuel env _ cid addr s2 u hw
      obtain ⟨l, hev, hprop⟩ := w.events_ext
      constructor
      · refine ⟨l, ?_, ?_⟩
        · rw [updateCode_events]
          exact hev
        · intro a ha
          exact hprop a ha
      · intro a m hma
        have hma' : jit_lookup_meta { s with visit_token := s.visit_token + 1 } a =
            some m := hma
        obtain ⟨m', hl', hc, -⟩ := w.meta_pres a m hma'
        refine ⟨m', ?_, hc.2.1, hc.2.2.1, hc.2.2.2.1, hc.2.2.2.2.1,
          hc.2.2.2.2.2.1, hc.2.2.2.2.2.2⟩
        rw [lookup_meta_congr (updateCode_metas s2 cid _) a]
        exact hl'

/-- A meta left over from an earlier compilation of 8192. -/
def metaCached : BlockMeta :=
  { guest_addr := 8192, branch_type := .fall_through, branch_addr := INVALID_ADDR,
    next_addr := INVALID_ADDR, num_instrs := 1, num_cycles := 1, size := 2,
    refs := 0, visited := 0 }

/-- This frontend can no longer analyze 8192 (`analyze` fails there), so
a walk reaching it succeeds only by reusing the cached meta. -/
def envC9 : JitEnv :=
  { analyze := fun a =>
      if a = 4096 then
        some { branch_type := .static, branch_addr := 8192,
               next_addr := INVALID_ADDR, num_instrs := 1, num_cycles := 1, size := 2 }
      else none,
    assemble := fun _ => some (65536, 32),
    handle_ex := fun _ => false,
    fastmem_default := true }

def stateC9 : JitState :=
  { jitInit with metas := [metaCached], codes := [codeA], next_id := 1 }

def stateC9out : JitState :=
  { metas := [{ guest_addr := 4096, branch_type := .static, branch_addr := 8192,
                next_addr := 4294967295, num_instrs := 1, num_cycles := 1,
                size := 2, refs := 1, visited := 1 },
              { guest_addr := 8192, branch_type := .fall_through,
                branch_addr := 4294967295, next_addr := 4294967295,
                num_instrs := 1, num_cycles := 1, size := 2, refs := 1,
                visited := 1 }],
    codes := [{ id := 0, guest_addr := 256, fastmem := true,
                root_unit := CompileUnit.node 0 4096
                  (CompileUnit.node 0 8192 CompileUnit.leaf CompileUnit.leaf)
                  CompileUnit.leaf,
                host_addr := 4096, host_size := 16 }],
    code_map := [], code_rmap := [], edges := [], dispatch := [],
    visit_token := 1, next_id := 1, events := [Event.frontend_analyze 4096] }

theorem jit_C9_witness : jit_lookup_meta stateC9out 8192 ≠ none := by
  have h := jit_C9_meta_cache_reuse envC9 stateC9 0 4096 8 stateC9out (by decide)
  obtain ⟨m', hm', -⟩ := h.2 8192 metaCached (by decide)
  rw [hm']
  simp

/-! ## C6 : analysis failure pruning, and what happens at the root -/

theorem free_alloc_eq (s : JitState) (addr : Nat)
    (hm : jit_lookup_meta s addr = none) :
    jit_free_meta (allocMeta s addr) addr =
      some { s with events := Event.frontend_analyze addr :: s.events } := by
  cases hf : jit_free_meta (allocMeta s addr) addr with
  | none =>
    exfalso
    unfold jit_free_meta at hf
    simp only [lookup_allocMeta_self] at hf
    rw [if_neg (by simp [freshMeta])] at hf
    exact absurd hf (by simp)
  | some t =>
    rw [free_alloc_spec s addr hm t hf]

theorem analyze_fail_prunes (env : JitEnv) (s : JitState) (cid addr fuel : Nat)
    (hm : jit_lookup_meta s addr = none) (hana : env.analyze addr = none)
    (haddr : ¬ addr = INVALID_ADDR) :
    jit_analyze_code_r env s cid addr (fuel + 1) =
      some ({ s with events := Event.frontend_analyze addr :: s.events },
            CompileUnit.leaf) := by
  have hmfa : jit_meta_for_addr env s addr =
      some ({ s with events := Event.frontend_analyze addr :: s.events }, none) := by
    unfold jit_meta_for_addr
    simp only [hm, hana, free_alloc_eq s addr hm]
  simp only [jit_analyze_code_r]
  rw [if_neg haddr, hmfa]

theorem root_fail_aborts (env : JitEnv) (s : JitState) (addr fuel : Nat)
    (hcode : jit_lookup_code s addr = none)
    (hm : jit_lookup_meta s addr = none) (hana : env.analyze addr = none)
    (haddr : ¬ addr = INVALID_ADDR) :
    jit_compile_code env s addr (fuel + 1) = none := by
  simp only [jit_compile_code, hcode]
  have hm2 : jit_lookup_meta
      { (jit_alloc_code s addr env.fastmem_default).1 with
        visit_token := (jit_alloc_code s addr env.fastmem_default).1.visit_token + 1 }
      addr = none := hm
  have hwalk := analyze_fail_prunes env
    { (jit_alloc_code s addr env.fastmem_default).1 with
      visit_token := (jit_alloc_code s addr env.fastmem_default).1.visit_token + 1 }
    (jit_alloc_code s addr env.fastmem_default).2 addr fuel hm2 hana haddr
  simp only [jit_analyze_code, hwalk]
  simp

/-- C6 counterexample: with a frontend whose `analyze_code` fails at the
compilation root, `jit_compile_code` does not return normally — the
`CHECK_NOTNULL(code->root_unit)` in `jit_analyze_code` is fatal
(modelled `none`), contradicting the claim that the dispatcher can
simply retry. -/
theorem jit_C6_counterexample :
    jit_compile_code envDecline jitInit 1024 8 = none := by decide

/-- The root (4096) analyzes as a conditional branch to 8192, where
analysis fails. -/
def envC6 : JitEnv :=
  { analyze := fun a =>
      if a = 4096 then
        some { branch_type := .static_true, branch_addr := 8192,
               next_addr := INVALID_ADDR, num_instrs := 1, num_cycles := 1, size := 2 }
      else none,
    assemble := fun _ => some (65536, 32),
    handle_ex := fun _ => false, fastmem_default := true }

/-- C6 (amended): when the frontend's `analyze_code` fails for a guest
address, the freshly created meta is discarded and that branch of the
walk is pruned (the walk returns with the meta map restored and only the
analyze attempt recorded); a compilation whose root is analyzable still
succeeds even when a branch target fails (the concrete run registers
code at 4096 and leaves no meta at the failed 8192); but when the
failing address is the compilation root itself, `jit_compile_code` hits
the fatal `CHECK_NOTNULL(code->root_unit)` and does not return. -/
theorem jit_C6_analyze_failure_behavior :
    (∀ env s cid addr fuel,
       jit_lookup_meta s addr = none → env.analyze addr = none →
       ¬ addr = INVALID_ADDR →
       jit_analyze_code_r env s cid addr (fuel + 1) =
         some ({ s with events := Event.frontend_analyze addr :: s.events },
               CompileUnit.leaf)) ∧
    ((jit_compile_code envC6 jitInit 4096 8).map (fun t =>
       ((jit_lookup_code t 4096).isSome, jit_lookup_meta t 8192)) =
      some (true, none)) ∧
    (∀ env s addr fuel,
       jit_lookup_code s addr = none → jit_lookup_meta s addr = none →
       env.analyze addr = none → ¬ addr = INVALID_ADDR →
       jit_compile_code env s addr (fuel + 1) = none) := by
  refine ⟨?_, by decide, ?_⟩
  · intro env s cid addr fuel hm hana haddr
    exact analyze_fail_prunes env s cid addr fuel hm hana haddr
  · intro env s addr fuel hcode hm hana haddr
    exact root_fail_aborts env s addr fuel hcode hm hana haddr

theorem jit_C6_witness :
    jit_analyze_code_r envDecline jitInit 0 1024 8 =
      some ({ jitInit with events := [Event.frontend_analyze 1024] },
            CompileUnit.leaf) :=
  jit_C6_analyze_failure_behavior.1 envDecline jitInit 0 1024 7
    (by decide) (by decide) (by decide)

/-! ## C8 : SH4 BT analysis -/

/-- Guest memory holding a single `BT +4` (displacement field 2) at
0x8c010000 (= 2349793280); everything else is undecodable. -/
def dec80 : Nat → Option Sh4Instr := fun a =>
  if a = 2349793280 then
    some { op := .BT, disp := 2, cycles := 1, delayed := false,
           branch := true, set_fpscr := false, set_sr := false }
  else none

/-- The SH4 frontend over `dec80`, with a backend that assembles into
[65536, 65568). -/
def envC8 : JitEnv :=
  { analyze := fun a => sh4_frontend_analyze_code dec80 a 32,
    assemble := fun _ => some (65536, 32),
    handle_ex := fun _ => false, fastmem_default := true }

/-- C8: when the SH4 analyzer reaches a (non-delayed) BT instruction at
address `a = (b + size) mod 2^32` with 8-bit displacement `d`, it stops
with `branch_type = STATIC_TRUE`, `branch_addr = a + 4 + 2*sext8(d)` and
`next_addr = a + 2` (mod 2^32), accumulating one instruction of two
bytes; and concretely, `BT +4` at 0x8c010000 yields
`branch_addr = 0x8c010008`, `next_addr = 0x8c010002`, and
`compile_code(0x8c010000)` registers a code at 0x8c010000. -/
theorem jit_C8_sh4_bt :
    (∀ (de : Nat → Option Sh4Instr) (b : Nat) (m : AnalyzeRes) (fuel : Nat)
       (i : Sh4Instr),
       de ((b + m.size) % 4294967296) = some i → i.op = Sh4Op.BT →
       i.branch = true → i.delayed = false →
       sh4_analyze_loop de b m (fuel + 1) =
         some { m with
           branch_type := .static_true,
           branch_addr :=
             u32addr ((((b + m.size) % 4294967296 : Nat) : Int) + 4 + 2 * sext8 i.disp),
           next_addr := ((b + m.size) % 4294967296 + 2) % 4294967296,
           num_cycles := m.num_cycles + i.cycles,
           num_instrs := m.num_instrs + 1,
           size := m.size + 2 }) ∧
    ((jit_compile_code envC8 jitInit 2349793280 8).map (fun t =>
       ((jit_lookup_code t 2349793280).isSome,
        (jit_lookup_meta t 2349793280).map (fun mm =>
          (mm.branch_type, mm.branch_addr, mm.next_addr)))) =
      some (true, some (.static_true, 2349793288, 2349793282))) := by
  constructor
  · intro de b m fuel i hde hop hbr hdl
    obtain ⟨op, disp, cyc, dly, br, fp, sr⟩ := i
    simp only at hop hbr hdl
    subst hop
    subst hbr
    subst hdl
    simp only [sh4_analyze_loop, hde]
    simp
  · decide

theorem jit_C8_witness :
    sh4_analyze_loop dec80 2349793280
      { branch_type := .fall_through, branch_addr := 4294967295,
        next_addr := 4294967295, num_instrs := 0, num_cycles := 0, size := 0 } 1 =
      some { branch_type := .static_true, branch_addr := 2349793288,
             next_addr := 2349793282, num_instrs := 1, num_cycles := 1, size := 2 } := by
  have h := jit_C8_sh4_bt.1 dec80 2349793280
    { branch_type := .fall_through, branch_addr := 4294967295,
      next_addr := 4294967295, num_instrs := 0, num_cycles := 0, size := 0 } 0
    { op := .BT, disp := 2, cycles := 1, delayed := false,
      branch := true, set_fpscr := false, set_sr := false }
    (by decide) rfl rfl rfl
  rw [h]
  decide

/-! ## C3 : fastmem monotonicity -/

/-- Heap sanity: live ids are below the allocation counter. -/
def IdsOk (s : JitState) : Prop := ∀ c ∈ s.codes, c.id < s.next_id

/-- How the code heap may evolve across one operation: the id counter
never decreases, a surviving code's fastmem flag never rises, and a
dead (previously allocated) id stays dead. -/
def FmEvo (s s' : JitState) : Prop :=
  s.next_id ≤ s'.next_id ∧
  (∀ i c c', codeFind s i = some c → codeFind s' i = some c' →
    (c'.fastmem = true → c.fastmem = true)) ∧
  (∀ i, i < s.next_id → codeFind s i = none → codeFind s' i = none)

theorem FmEvo.refl (s : JitState) : FmEvo s s :=
  ⟨Nat.le_refl _,
   fun i c c' h1 h2 himp => by
     obtain rfl := Option.some.inj (h1.symm.trans h2)
     exact himp,
   fun i hi h => h⟩

theorem codeFind_mem_id (s : JitState) (i : Nat) (c : JitCode)
    (h : codeFind s i = some c) : c ∈ s.codes ∧ c.id = i := by
  unfold codeFind at h
  have h1 := List.mem_of_find?_eq_some h
  have h2 := List.find?_some h
  exact ⟨h1, by simpa using h2⟩

theorem FmEvo.trans {s t u : JitState} (hids : IdsOk s)
    (h1 : FmEvo s t) (h2 : FmEvo t u) : FmEvo s u := by
  obtain ⟨n1, m1, a1⟩ := h1
  obtain ⟨n2, m2, a2⟩ := h2
  refine ⟨n1.trans n2, ?_, ?_⟩
  · intro i c c'' hs hu
    have hi : i < s.next_id := by
      obtain ⟨hmem, hid⟩ := codeFind_mem_id s i c hs
      have := hids c hmem
      omega
    cases ht : codeFind t i with
    | none =>
      have := a2 i (Nat.lt_of_lt_of_le hi n1) ht
      rw [this] at hu
      exact absurd hu (by simp)
    | some cm =>
      intro hfm
      exact m1 i c cm hs ht (m2 i cm c'' ht hu hfm)
  · intro i hi h
    exact a2 i (Nat.lt_of_lt_of_le hi n1) (a1 i hi h)

theorem fmEvo_of_same {s s' : JitState} (h1 : s'.codes = s.codes)
    (h2 : s'.next_id = s.next_id) : FmEvo s s' := by
  refine ⟨h2.ge, ?_, ?_⟩
  · intro i c c' hc hc'
    unfold codeFind at hc hc'
    rw [h1] at hc'
    obtain rfl := Option.some.inj (hc.symm.trans hc')
    exact fun h => h
  · intro i hi hc
    unfold codeFind at hc ⊢
    rw [h1]
    exact hc

theorem idsOk_of_same {s s' : JitState} (h1 : s'.codes = s.codes)
    (h2 : s'.next_id = s.next_id) (hids : IdsOk s) : IdsOk s' := by
  intro c hc
  rw [h1] at hc
  rw [h2]
  exact hids c hc

theorem fmEvo_of_map_ite {s s' : JitState} (i : Nat) (g : JitCode → JitCode)
    (hid : ∀ c, (g c).id = c.id)
    (hfm : ∀ c, (g c).fastmem = true → c.fastmem = true)
    (hc : s'.codes = s.codes.map (fun c => if c.id == i then g c else c))
    (hn : s'.next_id = s.next_id) : FmEvo s s' := by
  refine ⟨hn.ge, ?_, ?_⟩
  · intro j c c' h1 h2
    unfold codeFind at h1 h2
    rw [hc, codeFind_map_ite s.codes i j g hid, h1] at h2
    have h2' : (if c.id == i then g c else c) = c' := by
      have := h2
      simpa using this
    rw [← h2']
    by_cases hci : (c.id == i) = true
    · simp only [hci, if_true]
      exact hfm c
    · simp only [Bool.not_eq_true] at hci
      simp [hci]
  · intro j hj h1
    unfold codeFind at h1 ⊢
    rw [hc, codeFind_map_ite s.codes i j g hid, h1]
    rfl

theorem idsOk_of_map_ite {s s' : JitState} (i : Nat) (g : JitCode → JitCode)
    (hid : ∀ c, (g c).id = c.id)
    (hc : s'.codes = s.codes.map (fun c => if c.id == i then g c else c))
    (hn : s'.next_id = s.next_id) (hids : IdsOk s) : IdsOk s' := by
  intro c hcm
  rw [hc] at hcm
  obtain ⟨y, hy, rfl⟩ := List.mem_map.mp hcm
  have hlt := hids y hy
  rw [hn]
  by_cases hyi : (y.id == i) = true
  · simp only [hyi, if_true]
    rw [hid y]
    exact hlt
  · simp only [Bool.not_eq_true] at hyi
    simp only [hyi]
    simpa using hlt

theorem cfind_filter_ne (l : List JitCode) (cid j : Nat) :
    (l.filter (fun c => !(c.id == cid))).find? (fun c => c.id == j) =
      if j = cid then none else l.find? (fun c => c.id == j) := by
  by_cases hj : j = cid
  · subst hj
    rw [if_pos rfl]
    apply List.find?_eq_none.mpr
    intro x hx
    have := (List.mem_filter.mp hx).2
    simpa using this
  · rw [if_neg hj]
    induction l with
    | nil => simp
    | cons a t ih =>
      rw [List.filter_cons]
      by_cases hac : (a.id == cid) = true
      · have hdrop : (!(a.id == cid)) = false := by simp [hac]
        rw [hdrop]
        simp only [Bool.false_eq_true, if_false]
        have haj : (a.id == j) = false := by
          have : a.id = cid := by simpa using hac
          simp [this]
          exact fun hcontra => hj hcontra.symm
        rw [ih, List.find?_cons_of_neg _ (by simp [haj])]
      · have hkeep : (!(a.id == cid)) = true := by simp [hac]
        rw [hkeep]
        simp only [if_true]
        cases haj : (a.id == j) with
        | true =>
          rw [List.find?_cons_of_pos _ (by simp [haj]),
            List.find?_cons_of_pos _ (by simp [haj])]
        | false =>
          rw [List.find?_cons_of_neg _ (by simp [haj]),
            List.find?_cons_of_neg _ (by simp [haj]), ih]

theorem invalidate_body_next_id (s : JitState) (cid : Nat) (c : JitCode) :
    (jit_invalidate_body s cid c).next_id = s.next_id := by
  unfold jit_invalidate_body
  dsimp only
  rw [restore_edges_next_id, guestInvalidate_next_id, updateCode_next_id]
  exact (free_unit_frame s c.root_unit).2.2.2.2.2.2.2

theorem invalidate_next_id (s : JitState) (cid : Nat) :
    (jit_invalidate_code s cid).next_id = s.next_id := by
  unfold jit_invalidate_code
  cases codeFind s cid with
  | none => rfl
  | some c => exact invalidate_body_next_id s cid c

theorem fmEvo_invalidate (s : JitState) (cid : Nat) :
    FmEvo s (jit_invalidate_code s cid) ∧
    (IdsOk s → IdsOk (jit_invalidate_code s cid)) := by
  cases hc : codeFind s cid with
  | none =>
    have : jit_invalidate_code s cid = s := by unfold jit_invalidate_code; rw [hc]
    rw [this]
    exact ⟨FmEvo.refl s, fun h => h⟩
  | some c =>
    have hcodes := invalidate_codes s cid c hc
    have hnid := invalidate_next_id s cid
    constructor
    · exact fmEvo_of_map_ite cid (fun x => { x with root_unit := .leaf })
        (fun x => rfl) (fun x h => h) hcodes hnid
    · exact idsOk_of_map_ite cid (fun x => { x with root_unit := .leaf })
        (fun x => rfl) hcodes hnid

theorem fmEvo_free_code (s : JitState) (cid : Nat) (hids : IdsOk s) :
    FmEvo s (jit_free_code s cid) ∧
    ((jit_free_code s cid).next_id = s.next_id) ∧
    IdsOk (jit_free_code s cid) := by
  obtain ⟨hev1, hids1⟩ := fmEvo_invalidate s cid
  have hcodes : (jit_free_code s cid).codes =
      (jit_invalidate_code s cid).codes.filter (fun c => !(c.id == cid)) := rfl
  have hnid : (jit_free_code s cid).next_id = s.next_id := by
    show (jit_invalidate_code s cid).next_id = s.next_id
    exact invalidate_next_id s cid
  have hev2 : FmEvo (jit_invalidate_code s cid) (jit_free_code s cid) := by
    refine ⟨?_, ?_, ?_⟩
    · rw [hnid, invalidate_next_id]
    · intro j c c' h1 h2
      unfold codeFind at h1 h2
      rw [hcodes, cfind_filter_ne] at h2
      split at h2
      · exact absurd h2 (by simp)
      · obtain rfl := Option.some.inj (h1.symm.trans h2)
        exact fun h => h
    · intro j hj h1
      unfold codeFind at h1 ⊢
      rw [hcodes, cfind_filter_ne]
      split
      · rfl
      · exact h1
  refine ⟨FmEvo.trans hids hev1 hev2, hnid, ?_⟩
  intro c hcm
  rw [hcodes] at hcm
  have := hids1 hids c (List.mem_filter.mp hcm).1
  rw [hnid, ← invalidate_next_id s cid]
  exact this

theorem cfind_head (l : List JitCode) (c : JitCode) (i : Nat) (h : c.id = i) :
    ((c :: l).find? (fun x => x.id == i)) = some c :=
  List.find?_cons_of_pos _ (by simp [h])

theorem fmEvo_alloc (s : JitState) (addr : Nat) (fm : Bool) (hids : IdsOk s) :
    FmEvo s (jit_alloc_code s addr fm).1 ∧ IdsOk (jit_alloc_code s addr fm).1 := by
  have hcodes : (jit_alloc_code s addr fm).1.codes =
      allocCode s addr fm :: s.codes := rfl
  have hnid : (jit_alloc_code s addr fm).1.next_id = s.next_id + 1 := rfl
  constructor
  · refine ⟨Nat.le_succ _, ?_, ?_⟩
    · intro j c c' h1 h2
      unfold codeFind at h1 h2
      obtain ⟨hmem, hid⟩ := codeFind_mem_id s j c h1
      have hlt := hids c hmem
      have hne : ¬ (allocCode s addr fm).id = j := by
        show ¬ s.next_id = j
        omega
      rw [hcodes, List.find?_cons_of_neg _ (by simpa using hne)] at h2
      obtain rfl := Option.some.inj (h1.symm.trans h2)
      exact fun h => h
    · intro j hj h1
      unfold codeFind at h1 ⊢
      have hne : ¬ (allocCode s addr fm).id = j := by
        show ¬ s.next_id = j
        omega
      rw [hcodes, List.find?_cons_of_neg _ (by simpa using hne)]
      exact h1
  · intro c hc
    rw [hcodes] at hc
    rw [hnid]
    rcases List.mem_cons.mp hc with rfl | hc'
    · show s.next_id < s.next_id + 1
      omega
    · have := hids c hc'
      omega

theorem free_meta_frame (s : JitState) (a : Nat) (t : JitState)
    (h : jit_free_meta s a = some t) :
    t.codes = s.codes ∧ t.next_id = s.next_id := by
  unfold jit_free_meta at h
  split at h
  · exact absurd h (by simp)
  · split at h
    · exact absurd h (by simp)
    · obtain rfl := Option.some.inj h
      exact ⟨rfl, rfl⟩

theorem foldlM_free_meta_frame (l : List Nat) :
    ∀ s t : JitState, List.foldlM jit_free_meta s l = some t →
      t.codes = s.codes ∧ t.next_id = s.next_id := by
  induction l with
  | nil =>
    intro s t h
    rw [List.foldlM_nil] at h
    obtain rfl := Option.some.inj h
    exact ⟨rfl, rfl⟩
  | cons a l ih =>
    intro s t h
    rw [List.foldlM_cons] at h
    cases hstep : jit_free_meta s a with
    | none => rw [hstep] at h; exact absurd h (by simp)
    | some s1 =>
      rw [hstep] at h
      simp only [Option.bind_eq_bind, Option.some_bind] at h
      obtain ⟨h1, h2⟩ := ih s1 t h
      obtain ⟨g1, g2⟩ := free_meta_frame s a s1 hstep
      exact ⟨h1.trans g1, h2.trans g2⟩

theorem fm_foldl_free_code (l : List Nat) :
    ∀ s : JitState, IdsOk s →
      FmEvo s (l.foldl jit_free_code s) ∧ IdsOk (l.foldl jit_free_code s) := by
  induction l with
  | nil => intro s hids; exact ⟨FmEvo.refl s, hids⟩
  | cons a l ih =>
    intro s hids
    rw [List.foldl_cons]
    obtain ⟨he, -, hid1⟩ := fmEvo_free_code s a hids
    obtain ⟨he2, hid2⟩ := ih (jit_free_code s a) hid1
    exact ⟨FmEvo.trans hids he he2, hid2⟩

theorem fm_free_cache (s t : JitState) (h : jit_free_cache s = some t)
    (hids : IdsOk s) : FmEvo s t ∧ IdsOk t := by
  simp only [jit_free_cache] at h
  split at h
  case isFalse => exact absurd h (by simp)
  case isTrue hemp =>
    split at h
    · exact absurd h (by simp)
    case h_2 s2 hfold =>
      split at h
      case isFalse => exact absurd h (by simp)
      case isTrue hm =>
        obtain rfl := Option.some.inj h
        obtain ⟨he1, hid1⟩ := fm_foldl_free_code _ s hids
        obtain ⟨hc2, hn2⟩ := foldlM_free_meta_frame _ _ _ hfold
        have he2 : FmEvo ((s.code_map.map (fun kv => kv.2)).foldl jit_free_code s) s2 :=
          fmEvo_of_same hc2 hn2
        have hid2 : IdsOk s2 := idsOk_of_same hc2 hn2 hid1
        have he3 : FmEvo s2 { s2 with events := Event.backend_reset :: s2.events } :=
          fmEvo_of_same rfl rfl
        have hid3 : IdsOk { s2 with events := Event.backend_reset :: s2.events } := hid2
        exact ⟨FmEvo.trans hids he1 (FmEvo.trans hid1 he2 he3), hid3⟩

theorem fm_foldl_invalidate (l : List Nat) :
    ∀ s : JitState, IdsOk s →
      FmEvo s (l.foldl jit_invalidate_code s) ∧ IdsOk (l.foldl jit_invalidate_code s) := by
  induction l with
  | nil => intro s hids; exact ⟨FmEvo.refl s, hids⟩
  | cons a l ih =>
    intro s hids
    rw [List.foldl_cons]
    obtain ⟨he, hid0⟩ := fmEvo_invalidate s a
    obtain ⟨he2, hid2⟩ := ih (jit_invalidate_code s a) (hid0 hids)
    exact ⟨FmEvo.trans hids he he2, hid2⟩

theorem fm_invalidate_cache (s t : JitState) (h : jit_invalidate_cache s = some t)
    (hids : IdsOk s) : FmEvo s t ∧ IdsOk t := by
  simp only [jit_invalidate_cache] at h
  split at h
  · exact absurd h (by simp)
  case h_2 s2 hfold =>
    split at h
    case isFalse => exact absurd h (by simp)
    case isTrue hm =>
      obtain rfl := Option.some.inj h
      obtain ⟨he1, hid1⟩ := fm_foldl_invalidate _ s hids
      obtain ⟨hc2, hn2⟩ := foldlM_free_meta_frame _ _ _ hfold
      exact ⟨FmEvo.trans hids he1 (fmEvo_of_same hc2 hn2),
        idsOk_of_same hc2 hn2 hid1⟩

theorem finalize_frame (s : JitState) (cid : Nat) (s' : JitState)
    (h : jit_finalize_code s cid = some s') :
    s'.codes = s.codes ∧ s'.next_id = s.next_id := by
  unfold jit_finalize_code at h
  split at h
  · exact absurd h (by simp)
  case h_2 c hc =>
    split at h
    · exact absurd h (by simp)
    split at h
    · exact absurd h (by simp)
    obtain rfl := Option.some.inj h
    exact ⟨rfl, rfl⟩

theorem analyze_shape (env : JitEnv) (t : JitState) (cid addr fuel : Nat)
    (t2 : JitState) (h : jit_analyze_code env t cid addr fuel = some t2) :
    ∃ u, t2.codes = t.codes.map
        (fun c => if c.id == cid then { c with root_unit := u } else c) ∧
      t2.next_id = t.next_id ∧ t2.code_map = t.code_map := by
  simp only [jit_analyze_code] at h
  split at h
  · exact absurd h (by simp)
  case h_2 s2 u hw =>
    split at h
    · exact absurd h (by simp)
    case isFalse hne =>
      obtain rfl := Option.some.inj h
      have w := analyze_r_spec fuel env _ cid addr s2 u hw
      refine ⟨u, ?_, ?_, ?_⟩
      · rw [updateCode_codes, w.codes_eq]
      · rw [updateCode_next_id, w.next_id_eq]
      · rw [updateCode_map, w.map_eq]

theorem fm_analyze (env : JitEnv) (t : JitState) (cid addr fuel : Nat)
    (t2 : JitState) (h : jit_analyze_code env t cid addr fuel = some t2)
    (hids : IdsOk t) : FmEvo t t2 ∧ IdsOk t2 := by
  obtain ⟨u, hc, hn, -⟩ := analyze_shape env t cid addr fuel t2 h
  exact ⟨fmEvo_of_map_ite cid (fun c => { c with root_unit := u })
      (fun c => rfl) (fun c hh => hh) hc hn,
    idsOk_of_map_ite cid (fun c => { c with root_unit := u }) (fun c => rfl) hc hn hids⟩

theorem add_edge_frame (s : JitState) (b a : Nat) (s' : JitState)
    (h : jit_add_edge s b a = some s') :
    s'.codes = s.codes ∧ s'.next_id = s.next_id := by
  simp only [jit_add_edge] at h
  split at h
  · exact absurd h (by simp)
  case h_2 src hsrc =>
    split at h
    case isTrue =>
      obtain rfl := Option.some.inj h
      exact ⟨rfl, rfl⟩
    case isFalse =>
      split at h
      · obtain rfl := Option.some.inj h
        exact ⟨rfl, rfl⟩
      · obtain rfl := Option.some.inj h
        exact ⟨rfl, rfl⟩

theorem fm_handle_ex (env : JitEnv) (s : JitState) (pc : Nat) (hids : IdsOk s) :
    FmEvo s (jit_handle_exception env s pc).2 ∧
    IdsOk (jit_handle_exception env s pc).2 := by
  unfold jit_handle_exception
  split
  · exact ⟨FmEvo.refl s, hids⟩
  case h_2 code hcode =>
    split
    case isFalse => exact ⟨FmEvo.refl s, hids⟩
    case isTrue hex =>
      have hupd : (updateCode s code.id (fun c => { c with fastmem := false })).codes =
          s.codes.map (fun c =>
            if c.id == code.id then { c with fastmem := false } else c) := rfl
      have he1 : FmEvo s (updateCode s code.id (fun c => { c with fastmem := false })) :=
        fmEvo_of_map_ite code.id (fun c => { c with fastmem := false })
          (fun c => rfl) (fun c hh => absurd hh (by simp)) hupd rfl
      have hid1 : IdsOk (updateCode s code.id (fun c => { c with fastmem := false })) :=
        idsOk_of_map_ite code.id (fun c => { c with fastmem := false })
          (fun c => rfl) hupd rfl hids
      obtain ⟨he2, hid2⟩ := fmEvo_invalidate
        (updateCode s code.id (fun c => { c with fastmem := false })) code.id
      exact ⟨FmEvo.trans hids he1 he2, hid2 hid1⟩

theorem fm_compile (env : JitEnv) (s : JitState) (addr fuel : Nat) (s' : JitState)
    (h : jit_compile_code env s addr fuel = some s') (hids : IdsOk s) :
    FmEvo s s' ∧ IdsOk s' := by
  cases hex : jit_lookup_code s addr with
  | some ex =>
    simp only [jit_compile_code, hex] at h
    obtain ⟨hebase, -, hidbase⟩ := fmEvo_free_code s ex.id hids
    obtain ⟨healloc, hidalloc⟩ :=
      fmEvo_alloc (jit_free_code s ex.id) addr ex.fastmem hidbase
    split at h
    · exact absurd h (by simp)
    case h_2 s2 han =>
      obtain ⟨heana, hidana⟩ := fm_analyze env _ _ addr fuel s2 han hidalloc
      have hbase2 : FmEvo s s2 :=
        FmEvo.trans hids hebase (FmEvo.trans hidbase healloc heana)
      split at h
      case h_1 hs hasm =>
        have hupd : (updateCode s2 (jit_alloc_code (jit_free_code s ex.id) addr ex.fastmem).2
            (fun c => { c with host_addr := hs.1, host_size := hs.2 })).codes =
            s2.codes.map (fun c =>
              if c.id == (jit_alloc_code (jit_free_code s ex.id) addr ex.fastmem).2 then
                { c with host_addr := hs.1, host_size := hs.2 } else c) := rfl
        have he3 : FmEvo s2 _ := fmEvo_of_map_ite _
          (fun c => { c with host_addr := hs.1, host_size := hs.2 })
          (fun c => rfl) (fun c hh => hh) hupd rfl
        have hid3 : IdsOk _ := idsOk_of_map_ite _
          (fun c => { c with host_addr := hs.1, host_size := hs.2 })
          (fun c => rfl) hupd rfl hidana
        obtain ⟨hcf, hnf⟩ := finalize_frame _ _ _ h
        exact ⟨FmEvo.trans hids hbase2
            (FmEvo.trans hidana he3 (fmEvo_of_same hcf hnf)),
          idsOk_of_same hcf hnf hid3⟩
      case h_2 hasm =>
        obtain ⟨he3, -, hid3⟩ := fmEvo_free_code s2 _ hidana
        obtain ⟨he4, hid4⟩ := fm_free_cache _ _ h hid3
        exact ⟨FmEvo.trans hids hbase2
            (FmEvo.trans hidana he3 he4), hid4⟩
  | none =>
    simp only [jit_compile_code, hex] at h
    obtain ⟨healloc, hidalloc⟩ := fmEvo_alloc s addr env.fastmem_default hids
    split at h
    · exact absurd h (by simp)
    case h_2 s2 han =>
      obtain ⟨heana, hidana⟩ := fm_analyze env _ _ addr fuel s2 han hidalloc
      have hbase2 : FmEvo s s2 := FmEvo.trans hids healloc heana
      split at h
      case h_1 hs hasm =>
        have hupd : (updateCode s2 (jit_alloc_code s addr env.fastmem_default).2
            (fun c => { c with host_addr := hs.1, host_size := hs.2 })).codes =
            s2.codes.map (fun c =>
              if c.id == (jit_alloc_code s addr env.fastmem_default).2 then
                { c with host_addr := hs.1, host_size := hs.2 } else c) := rfl
        have he3 : FmEvo s2 _ := fmEvo_of_map_ite _
          (fun c => { c with host_addr := hs.1, host_size := hs.2 })
          (fun c => rfl) (fun c hh => hh) hupd rfl
        have hid3 : IdsOk _ := idsOk_of_map_ite _
          (fun c => { c with host_addr := hs.1, host_size := hs.2 })
          (fun c => rfl) hupd rfl hidana
        obtain ⟨hcf, hnf⟩ := finalize_frame _ _ _ h
        exact ⟨FmEvo.trans hids hbase2
            (FmEvo.trans hidana he3 (fmEvo_of_same hcf hnf)),
          idsOk_of_same hcf hnf hid3⟩
      case h_2 hasm =>
        obtain ⟨he3, -, hid3⟩ := fmEvo_free_code s2 _ hidana
        obtain ⟨he4, hid4⟩ := fm_free_cache _ _ h hid3
        exact ⟨FmEvo.trans hids hbase2
            (FmEvo.trans hidana he3 he4), hid4⟩

theorem fm_step (env : JitEnv) (s : JitState) (op : JitOp) (s' : JitState)
    (h : jit_step env s op = some s') (hids : IdsOk s) : FmEvo s s' ∧ IdsOk s' := by
  cases op with
  | compile addr => exact fm_compile env s addr jitFuel s' h hids
  | add_edge b a =>
    obtain ⟨hc, hn⟩ := add_edge_frame s b a s' h
    exact ⟨fmEvo_of_same hc hn, idsOk_of_same hc hn hids⟩
  | handle_ex pc =>
    obtain rfl : (jit_handle_exception env s pc).2 = s' := Option.some.inj h
    exact fm_handle_ex env s pc hids
  | invalidate_cache => exact fm_invalidate_cache s s' h hids
  | free_cache => exact fm_free_cache s s' h hids

theorem fm_run (env : JitEnv) (ops : List JitOp) :
    ∀ s s' : JitState, jit_run env s ops = some s' → IdsOk s →
      FmEvo s s' ∧ IdsOk s' := by
  induction ops with
  | nil =>
    intro s s' h hids
    obtain rfl := Option.some.inj (by simpa [jit_run] using h)
    exact ⟨FmEvo.refl s, hids⟩
  | cons op ops ih =>
    intro s s' h hids
    unfold jit_run at h
    split at h
    · exact absurd h (by simp)
    case h_2 s1 hstep =>
      obtain ⟨he1, hid1⟩ := fm_step env s op s1 hstep hids
      obtain ⟨he2, hid2⟩ := ih s1 s' h hid1
      exact ⟨FmEvo.trans hids he1 he2, hid2⟩

theorem cfind_map_head (l : List JitCode) (c0 : JitCode) (i : Nat)
    (f : JitCode → JitCode) (hfid : ∀ x, (f x).id = x.id) (hc0 : c0.id = i) :
    ((c0 :: l).map f).find? (fun x => x.id == i) = some (f c0) := by
  rw [List.map_cons]
  exact List.find?_cons_of_pos _ (by rw [hfid]; simp [hc0])

theorem find?_sortedInsert_self (l : List (Nat × Nat)) (k i : Nat)
    (hfresh : ∀ e ∈ l, (e.1 == k) = false) :
    (sortedInsert l (k, i)).find? (fun e => e.1 == k) = some (k, i) := by
  induction l with
  | nil =>
    show ([((k, i) : Nat × Nat)].find? (fun e => e.1 == k)) = some (k, i)
    exact List.find?_cons_of_pos _ (by simp)
  | cons a t ih =>
    unfold sortedInsert
    split
    · rw [List.find?_cons_of_neg _ (by simp [hfresh a (by simp)])]
      exact ih (fun e he => hfresh e (by simp [he]))
    · exact List.find?_cons_of_pos _ (by simp)

theorem mem_unique_key {l : List (Nat × Nat)} (h : (l.map Prod.fst).Nodup)
    {e1 e2 : Nat × Nat} (h1 : e1 ∈ l) (h2 : e2 ∈ l) (hk : e1.1 = e2.1) :
    e1 = e2 := by
  induction l with
  | nil => cases h1
  | cons a t ih =>
    rw [List.map_cons, List.nodup_cons] at h
    obtain ⟨hnotin, hnd⟩ := h
    rcases List.mem_cons.mp h1 with rfl | h1' <;>
      rcases List.mem_cons.mp h2 with rfl | h2'
    · rfl
    · exact absurd (List.mem_map.mpr ⟨e2, h2', hk.symm⟩) hnotin
    · exact absurd (List.mem_map.mpr ⟨e1, h1', hk⟩) hnotin
    · exact ih hnd h1' h2'

theorem guestCacheCode_codes (s : JitState) (a h : Nat) :
    (guestCacheCode s a h).codes = s.codes := rfl

/-- The new code after analysis attached its root unit. -/
def rootedCode (sbase : JitState) (addr : Nat) (fm : Bool) (u : CompileUnit) : JitCode :=
  { allocCode sbase addr fm with root_unit := u }

/-- The new code after the backend filled in its host range. -/
def finalCode (sbase : JitState) (addr : Nat) (fm : Bool) (u : CompileUnit)
    (hs : Nat × Nat) : JitCode :=
  { allocCode sbase addr fm with root_unit := u, host_addr := hs.1, host_size := hs.2 }

theorem finalize_lookup (s : JitState) (cid : Nat) (s' : JitState) (c0 : JitCode)
    (hfind : codeFind s cid = some c0)
    (h : jit_finalize_code s cid = some s')
    (hnokey : ∀ e ∈ s.code_map, (e.1 == c0.guest_addr) = false) :
    jit_lookup_code s' c0.guest_addr = some c0 := by
  unfold jit_finalize_code at h
  split at h
  · exact absurd h (by simp)
  case h_2 c hc =>
    obtain rfl : c0 = c := Option.some.inj (hfind.symm.trans hc)
    split at h
    · exact absurd h (by simp)
    split at h
    · exact absurd h (by simp)
    obtain rfl := Option.some.inj h
    unfold jit_lookup_code
    dsimp only
    rw [guestCacheCode_map, find?_sortedInsert_self s.code_map c0.guest_addr cid hnokey]
    unfold codeFind
    dsimp only
    rw [guestCacheCode_codes]
    exact hfind

theorem compile_tail_flag (env : JitEnv) (sbase : JitState) (addr fuel : Nat)
    (fm : Bool) (s' : JitState)
    (hnokey : ∀ e ∈ sbase.code_map, (e.1 == addr) = false)
    (h : (match jit_analyze_code env (jit_alloc_code sbase addr fm).1
            (jit_alloc_code sbase addr fm).2 addr fuel with
          | none => none
          | some s2 =>
            match env.assemble addr with
            | some hs =>
              jit_finalize_code
                (updateCode s2 (jit_alloc_code sbase addr fm).2
                  (fun c => { c with host_addr := hs.1, host_size := hs.2 }))
                (jit_alloc_code sbase addr fm).2
            | none =>
              jit_free_cache (jit_free_code s2 (jit_alloc_code sbase addr fm).2)) =
          some s') :
    ∀ c', jit_lookup_code s' addr = some c' → c'.fastmem = fm := by
  intro c' hlook
  split at h
  · exact absurd h (by simp)
  case h_2 s2 han =>
    obtain ⟨u, hcodes2, hnext2, hmap2⟩ := analyze_shape env _ _ addr fuel s2 han
    split at h
    case h_2 hasm =>
      obtain ⟨hmapE, -, -, -⟩ := free_cache_spec _ _ h
      rw [jit_lookup_code, hmapE] at hlook
      exact absurd hlook (by simp)
    case h_1 hs hasm =>
      have hfind2 : codeFind s2 (jit_alloc_code sbase addr fm).2 =
          some (rootedCode sbase addr fm u) := by
        unfold codeFind
        rw [hcodes2,
          show (jit_alloc_code sbase addr fm).1.codes =
            allocCode sbase addr fm :: sbase.codes from rfl,
          cfind_map_head sbase.codes (allocCode sbase addr fm)
            (jit_alloc_code sbase addr fm).2
            (fun c => if c.id == (jit_alloc_code sbase addr fm).2 then
              { c with root_unit := u } else c)
            (by
              intro x
              by_cases hx : (x.id == (jit_alloc_code sbase addr fm).2) = true
              · simp only [hx, if_true]
              · simp only [Bool.not_eq_true] at hx
                simp [hx])
            rfl]
        have hpos : ((allocCode sbase addr fm).id ==
            (jit_alloc_code sbase addr fm).2) = true := by
          show ((sbase.next_id == sbase.next_id) = true)
          simp
        rw [if_pos hpos]
        rfl
      have hfind3 : codeFind (updateCode s2 (jit_alloc_code sbase addr fm).2
          (fun c => { c with host_addr := hs.1, host_size := hs.2 }))
          (jit_alloc_code sbase addr fm).2 =
          some (finalCode sbase addr fm u hs) := by
        unfold codeFind
        rw [updateCode_codes,
          codeFind_map_ite s2.codes (jit_alloc_code sbase addr fm).2
            (jit_alloc_code sbase addr fm).2
            (fun c => { c with host_addr := hs.1, host_size := hs.2 })
            (fun c => rfl)]
        unfold codeFind at hfind2
        rw [hfind2]
        have hpos : ((rootedCode sbase addr fm u).id ==
            (jit_alloc_code sbase addr fm).2) = true := by
          show ((sbase.next_id == sbase.next_id) = true)
          simp
        simp only [Option.map_some']
        rw [if_pos hpos]
        rfl
      have hguest : (finalCode sbase addr fm u hs).guest_addr = addr := rfl
      have hnokey3 : ∀ e ∈ (updateCode s2 (jit_alloc_code sbase addr fm).2
          (fun c => { c with host_addr := hs.1, host_size := hs.2 })).code_map,
          (e.1 == (finalCode sbase addr fm u hs).guest_addr) = false := by
        intro e he
        rw [updateCode_map, hmap2] at he
        rw [hguest]
        exact hnokey e he
      have hfl := finalize_lookup _ _ _ _ hfind3 h hnokey3
      rw [hguest] at hfl
      have hcc : finalCode sbase addr fm u hs = c' :=
        Option.some.inj (hfl.symm.trans hlook)
      rw [← hcc]
      rfl

theorem lookup_code_entry (s : JitState) (addr : Nat) (ex : JitCode)
    (h : jit_lookup_code s addr = some ex) :
    ∃ kv, s.code_map.find? (fun kv => kv.1 == addr) = some kv ∧
      codeFind s kv.2 = some ex ∧ kv.1 = addr ∧ ex.id = kv.2 := by
  unfold jit_lookup_code at h
  split at h
  · exact absurd h (by simp)
  case h_2 kv hkv =>
    have hk := List.find?_some hkv
    exact ⟨kv, hkv, h, by simpa using hk, (codeFind_mem_id s kv.2 ex h).2⟩

/-- C3: (1) across any sequence of public operations without
`free_cache`, a code object's fastmem flag never transitions from 0 to
1; (2) recompiling a guest address with an existing code entry gives the
new code the existing entry's flag; (3) compiling a fresh guest address
gives the new code the build default. -/
theorem jit_C3_fastmem_monotone :
    (∀ env ops s s', (∀ op ∈ ops, ¬ op = JitOp.free_cache) →
       jit_run env s ops = some s' → IdsOk s →
       ∀ i c c', codeFind s i = some c → codeFind s' i = some c' →
         c'.fastmem = true → c.fastmem = true) ∧
    (∀ env s addr fuel s' ex c', IdsOk s → (s.code_map.map Prod.fst).Nodup →
       jit_lookup_code s addr = some ex →
       jit_compile_code env s addr fuel = some s' →
       jit_lookup_code s' addr = some c' → c'.fastmem = ex.fastmem) ∧
    (∀ env s addr fuel s' c',
       s.code_map.find? (fun kv => kv.1 == addr) = none →
       jit_compile_code env s addr fuel = some s' →
       jit_lookup_code s' addr = some c' → c'.fastmem = env.fastmem_default) := by
  refine ⟨?_, ?_, ?_⟩
  · intro env ops s s' hnofree h hids i c c' h1 h2
    exact (fm_run env ops s s' h hids).1.2.1 i c c' h1 h2
  · intro env s addr fuel s' ex c' hids hnodup hex h hlook
    obtain ⟨kv, hkv, hfindkv, hkey, hexid⟩ := lookup_code_entry s addr ex hex
    simp only [jit_compile_code, hex] at h
    have hnokey : ∀ e ∈ (jit_free_code s ex.id).code_map, (e.1 == addr) = false := by
      intro e he
      rw [free_code_map] at he
      obtain ⟨hmem, hne⟩ := List.mem_filter.mp he
      cases hb : (e.1 == addr) with
      | false => rfl
      | true =>
        exfalso
        have hkeq : e.1 = addr := by simpa using hb
        have hekv : e = kv :=
          mem_unique_key hnodup hmem (List.mem_of_find?_eq_some hkv)
            (hkeq.trans hkey.symm)
        rw [hekv, ← hexid] at hne
        simp at hne
    exact compile_tail_flag env (jit_free_code s ex.id) addr fuel ex.fastmem s'
      hnokey h c' hlook
  · intro env s addr fuel s' c' henc h hlook
    have hex : jit_lookup_code s addr = none := by
      unfold jit_lookup_code
      rw [henc]
    simp only [jit_compile_code, hex] at h
    have hnokey : ∀ e ∈ s.code_map, (e.1 == addr) = false := by
      intro e he
      have := List.find?_eq_none.mp henc e he
      simpa using this
    exact compile_tail_flag env s addr fuel env.fastmem_default s' hnokey h c' hlook

/-- An existing code at 4096 whose fastmem was already turned off. -/
def codeC3 : JitCode :=
  { id := 0, guest_addr := 4096, fastmem := false, root_unit := .leaf,
    host_addr := 32768, host_size := 16 }

def stateC3 : JitState :=
  { metas := [], codes := [codeC3], code_map := [(4096, 0)],
    code_rmap := [(32768, 0)], edges := [], dispatch := [(4096, 32768)],
    visit_token := 0, next_id := 1, events := [] }

/-- The result of recompiling 4096 over `stateC3`. -/
def stateC3out : JitState :=
  { metas := [{ guest_addr := 8192, branch_type := .fall_through,
                branch_addr := 4294967295, next_addr := 4096, num_instrs := 1,
                num_cycles := 1, size := 2, refs := 1, visited := 1 },
              { guest_addr := 4096, branch_type := .static, branch_addr := 8192,
                next_addr := 4294967295, num_instrs := 1, num_cycles := 1,
                size := 2, refs := 1, visited := 1 }],
    codes := [{ id := 1, guest_addr := 4096, fastmem := false,
                root_unit := CompileUnit.node 1 4096
                  (CompileUnit.node 1 8192 CompileUnit.leaf CompileUnit.leaf)
                  CompileUnit.leaf,
                host_addr := 65536, host_size := 32 }],
    code_map := [(4096, 1)], code_rmap := [(65536, 1)], edges := [],
    dispatch := [(4096, 65536)], visit_token := 1, next_id := 2,
    events := [Event.guest_cache 4096 65536, Event.frontend_analyze 8192,
               Event.frontend_analyze 4096, Event.guest_invalidate 4096] }

def codeC3out : JitCode :=
  { id := 1, guest_addr := 4096, fastmem := false,
    root_unit := CompileUnit.node 1 4096
      (CompileUnit.node 1 8192 CompileUnit.leaf CompileUnit.leaf)
      CompileUnit.leaf,
    host_addr := 65536, host_size := 32 }

theorem jit_C3_witness : codeC3out.fastmem = codeC3.fastmem :=
  jit_C3_fastmem_monotone.2.1 envC4 stateC3 4096 8 stateC3out codeC3 codeC3out
    (by intro c hc; fin_cases hc; decide)
    (by decide) (by decide) (by decide) (by decide)
